import Mathlib

/-!
# Verification of the NovelGrok core (`novel_ai`)

A shallow embedding, in Lean 4, of the two core subsystems of the repository:

* `novel_ai/utils/text_utils.py` — the token estimator (`count_tokens`) and the
  sentence splitter (`split_into_sentences`);
* `novel_ai/core/character_tracker.py` — the character state store
  (`CharacterTracker` with its experience / relationship / personality
  operations);
* `novel_ai/core/context_manager.py` — the layered context assembler
  (`ContextManager.build_writing_context` and its helpers).

Modelling conventions:

* Python text is modelled as `List Char` (Lean `String` is a wrapper around
  exactly that); Python `int` is Lean `Int`; Python `None`-able values are
  `Option`; Python dictionaries keyed by character name are total functions
  `String → Option v` (`none` = key absent).
* Python float arithmetic on the fixed literal weights (`1.5`, `1.3`, `0.5`,
  `0.2`) is modelled as exact decimal arithmetic over `Int`
  (e.g. `int(x * 0.2)` becomes `x / 5`); the concrete inputs evaluated in the
  theorems below are small enough that binary floating point and exact decimal
  arithmetic agree on them.
* `datetime.now().isoformat()` timestamps are nondeterministic inputs of the
  environment; every operation that stores a timestamp takes it as an explicit
  `String` argument.
* Python's stable `sorted` is modelled by stable insertion sort
  (`List.insertionSort`); on totally comparable keys the two agree because a
  stable sort is unique.  Where CPython's `sorted` can raise `TypeError`
  (comparing `None` with `int`), the model sorts inside `Except Unit` and the
  comparator returns `Except.error ()` for such a pair.
-/

/-! ## text_utils.py -/

/-- The CJK-ideograph test of the regex `[一-鿿]`. -/
def isChineseChar (c : Char) : Bool :=
  0x4e00 ≤ c.toNat && c.toNat ≤ 0x9fff

/-- The ASCII-letter test of the regex `[a-zA-Z]`. -/
def isAsciiLetterChar (c : Char) : Bool :=
  (0x61 ≤ c.toNat && c.toNat ≤ 0x7a) || (0x41 ≤ c.toNat && c.toNat ≤ 0x5a)

/-- ASCII digit. -/
def isDigitChar (c : Char) : Bool :=
  0x30 ≤ c.toNat && c.toNat ≤ 0x39

/-- The word-character class `\w` deciding the `\b` boundaries of
`r'\b[a-zA-Z]+\b'`.  Python's `\w` is Unicode; the model covers the character
repertoire this repository processes: ASCII alphanumerics, `_`, and the CJK
block (CJK ideographs are word characters in Python, which is what prevents a
letter run glued to Chinese text from matching the word regex). -/
def isWordChar (c : Char) : Bool :=
  isAsciiLetterChar c || isDigitChar c || c = '_' || isChineseChar c

/-- State of the left-to-right scan that reproduces
`re.findall(r'\b[a-zA-Z]+\b', text)`: `runLen` is the length of the letter run
currently open, `leftOk` whether that run started at a `\b` boundary,
`prevWord` whether the previous character was a word character, and
`words`/`letters` the number of matched words and the total length of the
matched words so far. -/
structure WordScan where
  leftOk : Bool
  runLen : Nat
  prevWord : Bool
  words : Nat
  letters : Nat
  deriving DecidableEq

def waInit : WordScan := ⟨false, 0, false, 0, 0⟩

/-- One character of the word-matching scan.  A maximal ASCII-letter run is a
match of `\b[a-zA-Z]+\b` exactly when the characters on both sides (when they
exist) are not word characters. -/
def waStep (st : WordScan) (c : Char) : WordScan :=
  if isAsciiLetterChar c then
    if st.runLen = 0 then
      ⟨!st.prevWord, 1, true, st.words, st.letters⟩
    else
      ⟨st.leftOk, st.runLen + 1, true, st.words, st.letters⟩
  else
    if 0 < st.runLen && st.leftOk && !isWordChar c then
      ⟨false, 0, isWordChar c, st.words + 1, st.letters + st.runLen⟩
    else
      ⟨false, 0, isWordChar c, st.words, st.letters⟩

def wordScan (l : List Char) : WordScan := l.foldl waStep waInit

/-- `(number of matches, total length of matches)` of
`re.findall(r'\b[a-zA-Z]+\b', text)`: run the scan and close a run still open
at the end of the text (the end of the string is a `\b` boundary). -/
def wordStats (l : List Char) : Nat × Nat :=
  let st := wordScan l
  if 0 < st.runLen && st.leftOk then (st.words + 1, st.letters + st.runLen)
  else (st.words, st.letters)

/-- `len(re.findall(r'[一-鿿]', text))`. -/
def chineseCount (l : List Char) : Nat := l.countP (fun c => isChineseChar c)

/-- `count_tokens` of `text_utils.py` on a character list.

```python
chinese_chars = len(re.findall(r'[一-鿿]', text))
english_words = len(re.findall(r'\b[a-zA-Z]+\b', text))
other_chars = len(text) - chinese_chars - sum(len(w) for w in words)
tokens = int(chinese_chars * 1.5 + english_words * 1.3 + other_chars * 0.5)
return max(tokens, 1)
```

The float weights are modelled as exact tenths, so the estimate is
`(15*chinese + 13*words + 5*other) / 10` rounded toward zero; the empty (falsy)
string short-circuits to `0`. -/
def countTokensL (l : List Char) : Int :=
  if l = [] then 0
  else
    let ch : Int := chineseCount l
    let w : Int := (wordStats l).1
    let ls : Int := (wordStats l).2
    let other : Int := (l.length : Int) - ch - ls
    max ((15 * ch + 13 * w + 5 * other) / 10) 1

/-- `count_tokens` on a `String`. -/
def count_tokens (s : String) : Int := countTokensL s.data

example : count_tokens "" = 0 := by decide
example : count_tokens "a a" = 3 := by decide
example : count_tokens "a a1" = 2 := by decide
example : count_tokens "你好" = 3 := by decide

/-- The sentence-terminator class of `re.split(r'[。！？\n]+', text)`. -/
def isSentenceSep (c : Char) : Bool :=
  c = '。' || c = '！' || c = '？' || c = '\n'

/-- Python `str.strip()` (leading and trailing whitespace removed); modelled
over the ASCII whitespace `Char.isWhitespace`, the repertoire occurring in the
repository's texts. -/
def pyStrip (l : List Char) : List Char :=
  ((l.dropWhile Char.isWhitespace).reverse.dropWhile Char.isWhitespace).reverse

/-- Split on each single separator character.  The `+` in the regex only merges
adjacent separators, i.e. it suppresses the empty segments between them; since
`split_into_sentences` filters out empty (stripped) segments anyway, splitting
on single characters yields the same sentence list. -/
def splitRuns : List Char → List (List Char)
  | [] => [[]]
  | c :: rest =>
    if isSentenceSep c then [] :: splitRuns rest
    else
      match splitRuns rest with
      | [] => [[c]]
      | r :: rs => (c :: r) :: rs

/-- `split_into_sentences` of `text_utils.py` on a character list:
`[s.strip() for s in re.split(r'[。！？\n]+', text) if s.strip()]`. -/
def splitSentencesL (l : List Char) : List (List Char) :=
  ((splitRuns l).map pyStrip).filter (· ≠ [])

/-- `split_into_sentences` on a `String`. -/
def split_into_sentences (s : String) : List String :=
  (splitSentencesL s.data).map String.mk

example : split_into_sentences "你好。世界！ a \n" = ["你好", "世界", "a"] := by decide

/-! ## character_tracker.py — data model -/

/-- `CharacterExperience` dataclass. -/
structure CharacterExperience where
  chapter_number : Int
  event_type : String
  description : String
  impact : String := "neutral"
  timestamp : String := ""
  related_characters : List String := []
  context : String := ""
  emotional_state : String := ""
  consequence : String := ""
  location : String := ""
  key_dialogue : String := ""
  deriving DecidableEq

/-- One entry of a relationship's `evolution_history`
(`{chapter, timestamp, old_type, new_type, old_intimacy, new_intimacy, reason}`). -/
structure EvolutionEntry where
  chapter : Option Int
  timestamp : String
  old_type : String
  new_type : String
  old_intimacy : Int
  new_intimacy : Int
  reason : String
  deriving DecidableEq

/-- `CharacterRelationship` dataclass. -/
structure CharacterRelationship where
  target_character : String
  relationship_type : String
  intimacy_level : Int
  description : String
  evolution_history : List EvolutionEntry := []
  first_met_chapter : Option Int := none
  deriving DecidableEq

/-- `PersonalityTrait` dataclass. -/
structure PersonalityTrait where
  trait_name : String
  intensity : Int
  description : String
  deriving DecidableEq

/-- `PersonalityEvolution` dataclass. -/
structure PersonalityEvolution where
  chapter_number : Int
  trait_name : String
  old_intensity : Int
  new_intensity : Int
  reason : String
  timestamp : String := ""
  deriving DecidableEq

/-- A Python dict keyed by character name, as a finite-map function:
`none` = key absent. -/
abbrev StrMap (α : Type) := String → Option α

/-- `d[k] = v` (and `del d[k]` as `v = none`). -/
def mapSet {α : Type} (m : StrMap α) (k : String) (v : Option α) : StrMap α :=
  fun x => if x = k then v else m x

/-- The four parallel mappings of `CharacterTracker`. -/
structure CharacterTracker where
  experiences : StrMap (List CharacterExperience)
  relationships : StrMap (List CharacterRelationship)
  personality_traits : StrMap (List PersonalityTrait)
  personality_evolution : StrMap (List PersonalityEvolution)

def emptyTracker : CharacterTracker := ⟨fun _ => none, fun _ => none, fun _ => none, fun _ => none⟩

/-- Python truthiness of an `Optional[str]` argument (`if new_type:` is false
both for `None` and for `""`). -/
def truthyStr : Option String → Bool
  | none => false
  | some s => s ≠ ""

/-! ## character_tracker.py — operations -/

/-- `add_experience`: ensure the key, then append. -/
def add_experience (st : CharacterTracker) (character_name : String)
    (e : CharacterExperience) : CharacterTracker :=
  let l := (st.experiences character_name).getD [] ++ [e]
  { st with experiences := mapSet st.experiences character_name (some l) }

/-- Sort order used by `sorted(experiences, key=lambda x: x.chapter_number)`. -/
def expChapterLe (a b : CharacterExperience) : Prop :=
  a.chapter_number ≤ b.chapter_number

instance : DecidableRel expChapterLe := fun a b =>
  inferInstanceAs (Decidable (a.chapter_number ≤ b.chapter_number))

/-- `get_character_experiences` with its optional filters (defaults `None`):
missing key gives `[]`, then filter by event type, filter by inclusive chapter
range, and sort (stably) by chapter number. -/
def get_character_experiences (st : CharacterTracker) (character_name : String)
    (event_type : Option String := none) (chapter_range : Option (Int × Int) := none) :
    List CharacterExperience :=
  let l0 := (st.experiences character_name).getD []
  let l1 := match event_type with
    | none => l0
    | some t => l0.filter (fun e => e.event_type = t)
  let l2 := match chapter_range with
    | none => l1
    | some (s, e) => l1.filter (fun x => s ≤ x.chapter_number && x.chapter_number ≤ e)
  List.insertionSort expChapterLe l2

/-- `get_relationship`: `None` when the owner key is absent, otherwise the
first record with the given target. -/
def get_relationship (st : CharacterTracker) (character_name target_character : String) :
    Option CharacterRelationship :=
  ((st.relationships character_name).getD []).find?
    (fun rel => rel.target_character = target_character)

/-- `get_all_relationships`. -/
def get_all_relationships (st : CharacterTracker) (character_name : String) :
    List CharacterRelationship :=
  (st.relationships character_name).getD []

/-- Replace the first element satisfying `p` by its image under `f`
(the Python pattern of mutating the record that a linear search found). -/
def replaceFirst {α : Type} (p : α → Bool) (f : α → α) : List α → List α
  | [] => []
  | x :: xs => if p x then f x :: xs else x :: replaceFirst p f xs

/-- `add_relationship`: ensure the owner key; if a relationship with this
target already exists, overwrite its type/intimacy/description in place
(no clamping, no evolution entry), else append a fresh record. -/
def add_relationship (st : CharacterTracker) (character_name target_character : String)
    (relationship_type : String) (intimacy_level : Int := 50) (description : String := "")
    (first_met_chapter : Option Int := none) : CharacterTracker :=
  let l0 := (st.relationships character_name).getD []
  let l1 :=
    if (l0.find? (fun rel => rel.target_character = target_character)).isSome then
      replaceFirst (fun rel => rel.target_character = target_character)
        (fun rel => { rel with
          relationship_type := relationship_type
          intimacy_level := intimacy_level
          description := description }) l0
    else
      l0 ++ [{ target_character := target_character
               relationship_type := relationship_type
               intimacy_level := intimacy_level
               description := description
               evolution_history := []
               first_met_chapter := first_met_chapter }]
  { st with relationships := mapSet st.relationships character_name (some l1) }

/-- `CharacterRelationship.update`: set the type if `new_type` is truthy, clamp
`intimacy_level + intimacy_change` into [0,100] if `intimacy_change` is nonzero
(`if intimacy_change:`), and append one evolution entry when the type changed
or `intimacy_change != 0`. -/
def CharacterRelationship.update (rel : CharacterRelationship)
    (new_type : Option String := none) (intimacy_change : Int := 0) (reason : String := "")
    (chapter : Option Int := none) (ts : String := "") : CharacterRelationship :=
  let old_type := rel.relationship_type
  let old_intimacy := rel.intimacy_level
  let newType := if truthyStr new_type then new_type.getD "" else rel.relationship_type
  let newIntimacy :=
    if intimacy_change ≠ 0 then max 0 (min 100 (rel.intimacy_level + intimacy_change))
    else rel.intimacy_level
  let hist :=
    if old_type ≠ newType ∨ intimacy_change ≠ 0 then
      rel.evolution_history ++
        [{ chapter := chapter, timestamp := ts, old_type := old_type,
           new_type := newType, old_intimacy := old_intimacy,
           new_intimacy := newIntimacy, reason := reason }]
    else rel.evolution_history
  { rel with relationship_type := newType, intimacy_level := newIntimacy,
             evolution_history := hist }

/-- `update_relationship`: no-op when the relationship does not exist; else
optionally overwrite the description (`if description:`) and delegate to
`CharacterRelationship.update` on the record the search found. -/
def update_relationship (st : CharacterTracker) (character_name target_character : String)
    (new_type : Option String := none) (intimacy_change : Int := 0)
    (description : Option String := none) (reason : String := "")
    (chapter : Option Int := none) (ts : String := "") : CharacterTracker :=
  match get_relationship st character_name target_character with
  | none => st
  | some _ =>
    let l := (st.relationships character_name).getD []
    let l' := replaceFirst (fun rel => rel.target_character = target_character)
      (fun rel =>
        CharacterRelationship.update
          { rel with description := if truthyStr description then description.getD "" else rel.description }
          new_type intimacy_change reason chapter ts) l
    { st with relationships := mapSet st.relationships character_name (some l') }

/-- `set_personality_traits`: wholesale replacement of the trait list. -/
def set_personality_traits (st : CharacterTracker) (character_name : String)
    (traits : List PersonalityTrait) : CharacterTracker :=
  { st with personality_traits := mapSet st.personality_traits character_name (some traits) }

/-- `update_personality_trait`: no-op on an unknown character; otherwise clamp
the first trait with the given name into [0,100] and append one
`PersonalityEvolution` entry (`chapter_number or 0`), breaking after the first
match. -/
def update_personality_trait (st : CharacterTracker) (character_name trait_name : String)
    (new_intensity : Int) (reason : String := "") (chapter_number : Option Int := none)
    (ts : String := "") : CharacterTracker :=
  match st.personality_traits character_name with
  | none => st
  | some l =>
    match l.find? (fun t => t.trait_name = trait_name) with
    | none => { st with personality_traits := mapSet st.personality_traits character_name (some l) }
    | some t0 =>
      let l' := replaceFirst (fun t => t.trait_name = trait_name)
        (fun t => { t with intensity := max 0 (min 100 new_intensity) }) l
      let entry : PersonalityEvolution :=
        { chapter_number := chapter_number.getD 0, trait_name := trait_name,
          old_intensity := t0.intensity, new_intensity := max 0 (min 100 new_intensity),
          reason := reason, timestamp := ts }
      let evo := (st.personality_evolution character_name).getD [] ++ [entry]
      { st with
        personality_traits := mapSet st.personality_traits character_name (some l'),
        personality_evolution := mapSet st.personality_evolution character_name (some evo) }

/-- `get_personality_evolution`. -/
def get_personality_evolution (st : CharacterTracker) (character_name : String) :
    List PersonalityEvolution :=
  (st.personality_evolution character_name).getD []

/-- The `related_characters` rewrite of `merge_character_data`:
`remove(source)` (first occurrence), then `append(target)` unless already
present. -/
def mergeRelatedRefs (source target : String) (l : List String) : List String :=
  if source ∈ l then
    let l' := l.erase source
    if target ∈ l' then l' else l' ++ [target]
  else l

/-- Sort order of `sorted(..., key=lambda x: x.chapter_number)` on
`PersonalityEvolution`. -/
def evoChapterLe (a b : PersonalityEvolution) : Prop :=
  a.chapter_number ≤ b.chapter_number

instance : DecidableRel evoChapterLe := fun a b =>
  inferInstanceAs (Decidable (a.chapter_number ≤ b.chapter_number))

/-- Step 1 of `merge_character_data`: move and re-sort experiences.  When
`source = target` this reproduces CPython exactly: `extend` with the list
itself doubles it, and the following `del` removes the key. -/
def mergeExpStep (source target : String) (st : CharacterTracker) : CharacterTracker :=
  match st.experiences source with
  | none => st
  | some src =>
    let merged := List.insertionSort expChapterLe ((st.experiences target).getD [] ++ src)
    { st with experiences :=
        mapSet (mapSet st.experiences target (some merged)) source none }

/-- Step 2: move relationships, skipping records whose target collides with an
existing target of the destination (the `existing_targets` set is computed once
before the loop). -/
def mergeRelStep (source target : String) (st : CharacterTracker) : CharacterTracker :=
  match st.relationships source with
  | none => st
  | some src =>
    let tgt := (st.relationships target).getD []
    let existingTargets := tgt.map (fun rel => rel.target_character)
    let merged := tgt ++ src.filter (fun rel => rel.target_character ∉ existingTargets)
    { st with relationships :=
        mapSet (mapSet st.relationships target (some merged)) source none }

/-- Step 3: every relationship of every character that pointed at `source` is
re-pointed at `target`. -/
def retargetStep (source target : String) (st : CharacterTracker) : CharacterTracker :=
  let f := fun (rel : CharacterRelationship) =>
    if rel.target_character = source then { rel with target_character := target } else rel
  { st with relationships := fun k => (st.relationships k).map (List.map f) }

/-- Step 4: rewrite `related_characters` references in every experience. -/
def relatedRefsStep (source target : String) (st : CharacterTracker) : CharacterTracker :=
  let f := fun (e : CharacterExperience) =>
    { e with related_characters := mergeRelatedRefs source target e.related_characters }
  { st with experiences := fun k => (st.experiences k).map (List.map f) }

/-- Step 5: move personality traits, skipping name collisions. -/
def mergeTraitsStep (source target : String) (st : CharacterTracker) : CharacterTracker :=
  match st.personality_traits source with
  | none => st
  | some src =>
    let tgt := (st.personality_traits target).getD []
    let existing := tgt.map (fun t => t.trait_name)
    let merged := tgt ++ src.filter (fun t => t.trait_name ∉ existing)
    { st with personality_traits :=
        mapSet (mapSet st.personality_traits target (some merged)) source none }

/-- Step 6: move and re-sort the personality-evolution log. -/
def mergeEvoStep (source target : String) (st : CharacterTracker) : CharacterTracker :=
  match st.personality_evolution source with
  | none => st
  | some src =>
    let merged := List.insertionSort evoChapterLe ((st.personality_evolution target).getD [] ++ src)
    { st with personality_evolution :=
        mapSet (mapSet st.personality_evolution target (some merged)) source none }

/-- `merge_character_data(source_name, target_name)`: the six steps in source
order. -/
def merge_character_data (st : CharacterTracker) (source_name target_name : String) :
    CharacterTracker :=
  mergeEvoStep source_name target_name
    (mergeTraitsStep source_name target_name
      (relatedRefsStep source_name target_name
        (retargetStep source_name target_name
          (mergeRelStep source_name target_name
            (mergeExpStep source_name target_name st)))))

/-- The `related_characters` rewrite of `rename_character`:
`related_characters[related_characters.index(old)] = new` replaces only the
first occurrence. -/
def replaceFirstOcc (old new : String) : List String → List String
  | [] => []
  | x :: xs => if x = old then new :: xs else x :: replaceFirstOcc old new xs

/-- Key rename of one mapping: `m[new] = m[old]; del m[old]` when `old` is
present (the guard `old ≠ new` is established by `rename_character`). -/
def renameKey {α : Type} (m : StrMap α) (old new : String) : StrMap α :=
  match m old with
  | none => m
  | some l => mapSet (mapSet m new (some l)) old none

/-- `rename_character(old_name, new_name)`: early return when the names are
equal; else rename the key in all four mappings, re-point relationship targets
and rewrite the first occurrence of the old name in each experience's
`related_characters`. -/
def renameExpStep (old_name new_name : String) (st : CharacterTracker) : CharacterTracker :=
  { st with experiences := renameKey st.experiences old_name new_name }

def renameRelStep (old_name new_name : String) (st : CharacterTracker) : CharacterTracker :=
  { st with relationships := renameKey st.relationships old_name new_name }

/-- The per-experience rewrite of `rename_character`:
`related_characters[related_characters.index(old)] = new` replaces only the
first occurrence. -/
def renameRelatedRewrite (old_name new_name : String) (e : CharacterExperience) :
    CharacterExperience :=
  { e with related_characters := replaceFirstOcc old_name new_name e.related_characters }

/-- The `related_characters` rewrite applied to every experience of every
character. -/
def renameRefsStep (old_name new_name : String) (st : CharacterTracker) : CharacterTracker :=
  { st with experiences := fun k =>
      (st.experiences k).map (List.map (renameRelatedRewrite old_name new_name)) }

def renameTraitsStep (old_name new_name : String) (st : CharacterTracker) : CharacterTracker :=
  { st with personality_traits := renameKey st.personality_traits old_name new_name }

def renameEvoStep (old_name new_name : String) (st : CharacterTracker) : CharacterTracker :=
  { st with personality_evolution := renameKey st.personality_evolution old_name new_name }

def rename_character (st : CharacterTracker) (old_name new_name : String) :
    CharacterTracker :=
  if old_name = new_name then st
  else
    renameEvoStep old_name new_name
      (renameTraitsStep old_name new_name
        (renameRefsStep old_name new_name
          (retargetStep old_name new_name
            (renameRelStep old_name new_name
              (renameExpStep old_name new_name st)))))

/-! ## character_tracker.py — timeline -/

/-- One tagged item of `get_character_timeline` (one of the dicts the method
builds; the fields not shared by all three shapes are defaulted to `""`). -/
structure TimelineItem where
  chapter : Option Int
  type : String
  content : String
  timestamp : String
  event_type : String := ""
  impact : String := ""
  reason : String := ""
  trait : String := ""
  deriving DecidableEq

def expItem (e : CharacterExperience) : TimelineItem :=
  { chapter := some e.chapter_number, type := "experience", event_type := e.event_type,
    content := e.description, impact := e.impact, timestamp := e.timestamp }

def relItem (rel : CharacterRelationship) (ch : EvolutionEntry) : TimelineItem :=
  { chapter := ch.chapter, type := "relationship",
    content := "与" ++ rel.target_character ++ "的关系：" ++ ch.old_type ++ " → " ++ ch.new_type,
    reason := ch.reason, timestamp := ch.timestamp }

def evoItem (evo : PersonalityEvolution) : TimelineItem :=
  { chapter := some evo.chapter_number, type := "personality", trait := evo.trait_name,
    content := evo.trait_name ++ "：" ++ toString evo.old_intensity ++ " → " ++ toString evo.new_intensity,
    reason := evo.reason, timestamp := evo.timestamp }

/-- The sort key `(x.get('chapter', 0), x['timestamp'])`: every item dict has a
`'chapter'` key, so the `0` default never fires and the key is the stored
chapter (possibly `None`). -/
def itemKey (x : TimelineItem) : Option Int × String := (x.chapter, x.timestamp)

/-- Python `<` on the key tuples.  Tuple comparison first tests the chapters
with `==` (`None == n` is `False`, no error) and compares the timestamps on
equality; otherwise it evaluates `chapter1 < chapter2`, which raises
`TypeError` when exactly one side is `None`. -/
def pyKeyLt (a b : Option Int × String) : Except Unit Bool :=
  if a.1 = b.1 then Except.ok (decide (a.2 < b.2))
  else
    match a.1, b.1 with
    | some x, some y => Except.ok (decide (x < y))
    | _, _ => Except.error ()

/-- Stable insertion into a sorted list, performing exactly the Python key
comparisons (an element is inserted before the first `b` with `¬ (key b < key a)`). -/
def orderedInsertE (a : TimelineItem) : List TimelineItem → Except Unit (List TimelineItem)
  | [] => Except.ok [a]
  | b :: l => do
    let ltba ← pyKeyLt (itemKey b) (itemKey a)
    if ltba then
      let r ← orderedInsertE a l
      pure (b :: r)
    else
      pure (a :: b :: l)

/-- `sorted(timeline, key=...)` as a stable insertion sort in `Except`
(CPython's Timsort agrees with any stable sort when all key comparisons are
defined, and raises `TypeError` when it compares a `None` chapter against an
integer one — with two items a single comparison of the two keys happens in
both algorithms). -/
def pySortTimeline : List TimelineItem → Except Unit (List TimelineItem)
  | [] => Except.ok []
  | x :: xs => do
    let r ← pySortTimeline xs
    orderedInsertE x r

/-- `get_character_timeline`: experiences (re-sorted by chapter), then each
relationship's evolution entries, then the personality-evolution log, sorted
by `(chapter, timestamp)`. -/
def get_character_timeline (st : CharacterTracker) (character_name : String) :
    Except Unit (List TimelineItem) :=
  let exps := (get_character_experiences st character_name).map expItem
  let rels := (get_all_relationships st character_name).flatMap
    (fun rel => rel.evolution_history.map (relItem rel))
  let evos := (get_personality_evolution st character_name).map evoItem
  pySortTimeline (exps ++ rels ++ evos)

/-! ## project.py — the snapshot consumed by the context manager -/

/-- The fields of `Chapter` read by the context manager. -/
structure Chapter where
  title : String
  content : String
  chapter_number : Nat := 0
  summary : String := ""
  deriving DecidableEq

/-- The fields of `Character` (project roster) read by the context manager. -/
structure RosterCharacter where
  name : String
  description : String
  personality : String := ""
  deriving DecidableEq

/-- The fields of `NovelProject` read by `build_writing_context`. -/
structure NovelProject where
  title : String
  genre : String := ""
  background : String := ""
  plot_outline : String := ""
  writing_style : String := ""
  characters : List RosterCharacter := []
  chapters : List Chapter := []
  plot_points : List String := []
  deriving DecidableEq

/-- `get_recent_chapters`: `chapters[-count:] if chapters else []` — note that
`count = 0` gives the whole list (`[-0:]` is `[0:]`). -/
def get_recent_chapters (chapters : List Chapter) (count : Nat) : List Chapter :=
  if chapters = [] then []
  else if count = 0 then chapters
  else chapters.drop (chapters.length - count)

/-- Python `l[-n:]` on a nonempty slice bound (`n = 0` yields the whole list). -/
def pyLastSlice {α : Type} (n : Nat) (l : List α) : List α :=
  if n = 0 then l else l.drop (l.length - n)

/-! ## context_manager.py -/

/-- The roster block of `_build_base_info` (non-simplified branch). -/
def characterLines (chars : List RosterCharacter) : List String :=
  chars.flatMap (fun c =>
    ("- " ++ c.name ++ "：" ++ c.description) ::
      (if c.personality ≠ "" then ["  性格：" ++ c.personality] else []))

/-- The plot-point block of `_build_base_info`: the last 5 points, enumerated
from 1. -/
def plotPointLines (points : List String) : List String :=
  (pyLastSlice 5 points).enum.map (fun p => toString (p.1 + 1) ++ ". " ++ p.2)

/-- `_build_base_info(project, simplified=False)`. -/
def build_base_info (project : NovelProject) (simplified : Bool := false) : String :=
  let parts := ["【小说基本信息】", "标题：" ++ project.title]
  let parts := parts ++ (if project.genre ≠ "" then ["类型：" ++ project.genre] else [])
  let parts := parts ++ (if project.background ≠ "" then ["背景设定：" ++ project.background] else [])
  let parts := parts ++ (if project.plot_outline ≠ "" then ["故事大纲：" ++ project.plot_outline] else [])
  let parts := parts ++ (if project.writing_style ≠ "" then ["写作风格：" ++ project.writing_style] else [])
  let parts := parts ++
    (if !simplified && project.characters ≠ [] then
      "\n【角色设定】" :: characterLines project.characters
     else if simplified && project.characters ≠ [] then
      ["主要角色：" ++ String.intercalate "、"
        ((project.characters.take 3).map (fun c => c.name ++ "（" ++ c.description ++ "）"))]
     else [])
  let parts := parts ++
    (if !simplified && project.plot_points ≠ [] then
      "\n【重要情节】" :: plotPointLines project.plot_points
     else [])
  String.intercalate "\n" parts

/-- `generate_simple_summary`: first three sentences plus the last one (or all
when fewer than four), joined by `。`, truncated to `max_length` characters
with an ellipsis. -/
def generate_simple_summary (chapter : Chapter) (max_length : Nat := 200) : String :=
  let sentences := split_into_sentences chapter.content
  if sentences = [] then "本章暂无内容"
  else
    let summary_sentences :=
      if 4 ≤ sentences.length then sentences.take 3 ++ [sentences.getLast!]
      else sentences
    let summary := String.intercalate "。" summary_sentences
    if max_length < summary.length then summary.take max_length ++ "..." else summary

/-- The summary line `f"第{n}章《{title}》：{summary_text}"` of
`_build_history_summary` (`chapter.summary if chapter.summary else
generate_simple_summary(chapter)`). -/
def summaryLine (c : Chapter) : String :=
  let summary_text := if c.summary ≠ "" then c.summary else generate_simple_summary c
  "第" ++ toString c.chapter_number ++ "章《" ++ c.title ++ "》：" ++ summary_text

/-- The accumulation loop of `_build_history_summary`: walk the reversed
history, stop at the first line that would push the running total over the
budget.  (The Python loop prepends each accepted line with `insert(0, ...)`;
the accepted prefix is reversed by the caller below.) -/
def selectSummaryLines (token_budget : Int) : Int → List Chapter → List String
  | _, [] => []
  | current, c :: rest =>
    let line := summaryLine c
    let lt := count_tokens line
    if token_budget < current + lt then []
    else line :: selectSummaryLines token_budget (current + lt) rest

/-- The accepted summary lines of `_build_history_summary`, in output
(chapter-ascending) order. -/
def historySummaryParts (chapters : List Chapter) (exclude_recent max_count : Nat)
    (token_budget : Int) : List String :=
  if chapters.length ≤ exclude_recent then []
  else
    let history := chapters.take (chapters.length - exclude_recent)
    (selectSummaryLines token_budget 0 (pyLastSlice max_count history).reverse).reverse

/-- `_build_history_summary`. -/
def build_history_summary (chapters : List Chapter) (exclude_recent : Nat := 2)
    (max_count : Nat := 5) (token_budget : Int := 2000) : String :=
  String.intercalate "\n" (historySummaryParts chapters exclude_recent max_count token_budget)

/-- The sentence-accumulation loop of `_truncate_to_token_limit`. -/
def takeSentences (token_limit : Int) : Int → List (List Char) → List (List Char)
  | _, [] => []
  | current, s :: rest =>
    let t := countTokensL s
    if token_limit < current + t then []
    else s :: takeSentences token_limit (current + t) rest

/-- `"。".join(result)` on character lists. -/
def joinChar (sep : Char) : List (List Char) → List Char
  | [] => []
  | [x] => x
  | x :: y :: xs => x ++ sep :: joinChar sep (y :: xs)

/-- `_truncate_to_token_limit` on a character list: keep whole sentences while
they fit, join them with `。` and append a final `。`. -/
def truncateToTokenLimitL (l : List Char) (token_limit : Int) : List Char :=
  joinChar '。' (takeSentences token_limit 0 (splitSentencesL l)) ++ ['。']

/-- `_truncate_to_token_limit` on a `String`. -/
def truncate_to_token_limit (text : String) (token_limit : Int) : String :=
  String.mk (truncateToTokenLimitL text.data token_limit)

/-- `f"## 第{n}章：{title}\n{content}"`. -/
def chapterFullText (c : Chapter) : String :=
  "## 第" ++ toString c.chapter_number ++ "章：" ++ c.title ++ "\n" ++ c.content

/-- The truncated form used when a chapter overruns the remaining budget
(header + truncated content + explicit marker). -/
def chapterTruncatedText (c : Chapter) (available_tokens : Int) : String :=
  "## 第" ++ toString c.chapter_number ++ "章：" ++ c.title ++ "\n" ++
    truncate_to_token_limit c.content available_tokens ++ "\n[内容过长，已截断]"

/-- The chapter loop of `_build_recent_content`: returns the accumulated parts
and whether any chapter was truncated.  A chapter whose full text exceeds
`token_budget - current` is replaced by its truncated form; the running total
then grows by the token count of whatever text was appended, and the loop
stops once the total reaches the budget. -/
def recentParts (token_budget : Int) : Int → List Chapter → List String × Bool
  | _, [] => ([], false)
  | current, c :: rest =>
    let full := chapterFullText c
    let chapter_tokens := count_tokens full
    let truncated := token_budget - current < chapter_tokens
    let text := if truncated then chapterTruncatedText c (token_budget - current) else full
    let current' := current + count_tokens text
    if token_budget ≤ current' then ([text], truncated)
    else
      let (ps, f) := recentParts token_budget current' rest
      (text :: ps, truncated || f)

/-- `_build_recent_content`. -/
def build_recent_content (project : NovelProject) (count : Nat := 2)
    (token_budget : Int := 4000) : String :=
  let recent := get_recent_chapters project.chapters count
  if recent = [] then ""
  else String.intercalate "\n\n" (recentParts token_budget 0 recent).1

/-- The result of `build_writing_context` together with its two budgeted
layers (the strings contributed by `_build_history_summary` and
`_build_recent_content`). -/
structure WritingContext where
  baseInfo : String
  historySummary : Option String
  recentContent : Option String
  output : String
  deriving DecidableEq

/-- `build_writing_context(project, include_full_recent, include_summary_count)`
with the configured `max_tokens`: base info (uncapped), then the history
summary under `int(max_tokens * 0.2)` (= `max_tokens / 5` in the exact-decimal
model), then the recent content under the remaining budget. -/
def build_writing_context (max_tokens : Int) (project : NovelProject)
    (include_full_recent : Nat := 2) (include_summary_count : Nat := 5) : WritingContext :=
  let base_info := build_base_info project
  let token_budget := max_tokens - count_tokens base_info
  let history :=
    if include_full_recent < project.chapters.length then
      let history_budget := max_tokens / 5
      let hs := build_history_summary project.chapters include_full_recent
        include_summary_count history_budget
      if hs ≠ "" then some hs else none
    else none
  let token_budget := match history with
    | some hs => token_budget - count_tokens hs
    | none => token_budget
  let recent := build_recent_content project include_full_recent token_budget
  let recentOpt := if recent ≠ "" then some recent else none
  let parts := [base_info] ++
    (match history with | some hs => ["\n【前情提要】\n" ++ hs] | none => []) ++
    (match recentOpt with | some rc => ["\n【最近章节】\n" ++ rc] | none => [])
  { baseInfo := base_info, historySummary := history, recentContent := recentOpt,
    output := String.intercalate "\n" parts }

/-- Token sum of a list of accumulated layer parts. -/
def tokenSum (l : List String) : Int := (l.map count_tokens).sum

/-! ## Helper lemmas -/

theorem mem_replaceFirst {α : Type} (p : α → Bool) (f : α → α) (t : α) :
    ∀ l : List α, t ∈ replaceFirst p f l → t ∈ l ∨ ∃ x, x ∈ l ∧ t = f x := by
  intro l
  induction l with
  | nil => intro h; simp [replaceFirst] at h
  | cons x xs ih =>
    intro h
    simp only [replaceFirst] at h
    by_cases hp : p x
    · simp [hp] at h
      rcases h with h | h
      · exact Or.inr ⟨x, by simp, h⟩
      · exact Or.inl (by simp [h])
    · simp [hp] at h
      rcases h with h | h
      · exact Or.inl (by simp [h])
      · rcases ih h with h' | ⟨y, hy, hfy⟩
        · exact Or.inl (by simp [h'])
        · exact Or.inr ⟨y, by simp [hy], hfy⟩

theorem map_replaceFirst {α β : Type} (p : α → Bool) (f : α → α) (g : α → β)
    (hg : ∀ x, g (f x) = g x) : ∀ l : List α, (replaceFirst p f l).map g = l.map g := by
  intro l
  induction l with
  | nil => rfl
  | cons x xs ih =>
    simp only [replaceFirst]
    by_cases hp : p x
    · simp [hp, hg]
    · simp [hp, ih]

theorem mapSet_same {α : Type} (m : StrMap α) (k : String) (v : Option α) :
    mapSet m k v k = v := by simp [mapSet]

theorem mapSet_other {α : Type} (m : StrMap α) (k x : String) (v : Option α)
    (h : x ≠ k) : mapSet m k v x = m x := by simp [mapSet, h]

/-! ## C1 -/

/-- Fixtures for the theorems below. -/
def rel0 : CharacterRelationship :=
  { target_character := "B", relationship_type := "friend", intimacy_level := 50,
    description := "" }

def trait0 : PersonalityTrait := { trait_name := "勇气", intensity := 40, description := "" }

def stTraits : CharacterTracker :=
  { emptyTracker with personality_traits := fun k => if k = "A" then some [trait0] else none }

/-- C1, counterexample: `add_relationship` stores `intimacy_level=150` verbatim
(no clamping on creation/overwrite), so after this reachable operation sequence
a stored relationship's `intimacy_level` is outside [0,100]. -/
theorem c1_counterexample :
    (get_relationship (add_relationship emptyTracker "A" "B" "friend" 150 "" none) "A" "B").map
      (fun r => r.intimacy_level) = some 150 ∧ ¬ ((150 : Int) ≤ 100) := by decide

/-- C1 (amended): only the update operations clamp.
`CharacterRelationship.update` leaves `intimacy_level` in [0,100] whenever
`intimacy_change ≠ 0`, and after `update_personality_trait` every stored trait
of the touched character is either an unchanged original or has its intensity
clamped into [0,100]; `add_relationship` and `set_personality_traits` store
their inputs unclamped (see the counterexample). -/
theorem c1_amended :
    (∀ (rel : CharacterRelationship) (nt : Option String) (ic : Int) (reason : String)
      (ch : Option Int) (ts : String), ic ≠ 0 →
      0 ≤ (CharacterRelationship.update rel nt ic reason ch ts).intimacy_level ∧
      (CharacterRelationship.update rel nt ic reason ch ts).intimacy_level ≤ 100) ∧
    (∀ (st : CharacterTracker) (cname tname : String) (ni : Int) (reason : String)
      (chn : Option Int) (ts : String) (t : PersonalityTrait),
      t ∈ ((update_personality_trait st cname tname ni reason chn ts).personality_traits cname).getD [] →
      t ∈ (st.personality_traits cname).getD [] ∨ (0 ≤ t.intensity ∧ t.intensity ≤ 100)) := by
  constructor
  · intro rel nt ic reason ch ts hic
    simp only [CharacterRelationship.update]
    simp only [if_pos hic]
    refine ⟨?_, ?_⟩ <;> omega
  · intro st cname tname ni reason chn ts t ht
    unfold update_personality_trait at ht
    cases hm : st.personality_traits cname with
    | none => simp [hm] at ht
    | some l =>
      simp only [hm] at ht
      cases hf : l.find? (fun tr => tr.trait_name = tname) with
      | none =>
        simp only [hf, mapSet_same] at ht
        simp at ht
        left; simp [hm, ht]
      | some t0 =>
        simp only [hf, mapSet_same] at ht
        simp at ht
        rcases mem_replaceFirst _ _ _ _ ht with h | ⟨x, _, hx⟩
        · left; simp [hm, h]
        · right; subst hx; simp

/-- Witness for `c1_amended` at concrete inputs. -/
theorem c1_amended_witness :
    (0 ≤ (CharacterRelationship.update rel0 none 5 "" none "").intimacy_level ∧
      (CharacterRelationship.update rel0 none 5 "" none "").intimacy_level ≤ 100) ∧
    (({ trait_name := "勇气", intensity := 77, description := "" } : PersonalityTrait) ∈
        (stTraits.personality_traits "A").getD [] ∨
      (0 ≤ (77 : Int) ∧ (77 : Int) ≤ 100)) :=
  ⟨c1_amended.1 rel0 none 5 "" none "" (by decide),
   c1_amended.2 stTraits "A" "勇气" 77 "" none "ts"
     { trait_name := "勇气", intensity := 77, description := "" } (by decide)⟩

/-! ## C4 -/

/-- A relationship already at the clamp boundary. -/
def relFull : CharacterRelationship :=
  { target_character := "乙", relationship_type := "friend", intimacy_level := 100,
    description := "" }

def stC4 : CharacterTracker :=
  { emptyTracker with relationships := fun k => if k = "甲" then some [relFull] else none }

/-- C4, counterexample: `update_relationship` with `intimacy_change = 5` on a
relationship already at intimacy 100 appends an evolution entry whose old and
new values are identical in both type and intimacy (the code tests
`intimacy_change != 0`, not whether the clamped value actually changed). -/
theorem c4_counterexample :
    (((update_relationship stC4 "甲" "乙" none 5 none "r" (some 3) "t9").relationships "甲").getD []).map
        (fun r => r.evolution_history) =
      [[{ chapter := some 3, timestamp := "t9", old_type := "friend", new_type := "friend",
          old_intimacy := 100, new_intimacy := 100, reason := "r" }]] ∧
    ¬ (("friend" : String) ≠ "friend" ∨ (100 : Int) ≠ 100) := by
  constructor
  · rfl
  · decide

theorem evolution_replaceFirst {f : CharacterRelationship → CharacterRelationship}
    (hf : ∀ r, (f r).evolution_history = r.evolution_history) (l : List CharacterRelationship) :
    (replaceFirst (fun rel => rel.target_character = t) f l).map
      (fun r => r.evolution_history) = l.map (fun r => r.evolution_history) :=
  map_replaceFirst _ _ _ hf l

/-- C4 (amended): `CharacterRelationship.update` appends exactly one evolution
entry when a truthy `new_type` differs from the current type or when
`intimacy_change ≠ 0` — even if clamping leaves the intimacy value unchanged —
and appends nothing otherwise; in particular a call with `intimacy_change = 0`
and no truthy `new_type` leaves the history untouched, and so does
`update_relationship` in that case regardless of any description change. -/
theorem c4_amended (rel : CharacterRelationship) (nt : Option String) (ic : Int)
    (reason : String) (ch : Option Int) (ts : String) :
    ((CharacterRelationship.update rel nt ic reason ch ts).evolution_history.length =
      rel.evolution_history.length +
        (if truthyStr nt = true ∧ nt.getD "" ≠ rel.relationship_type ∨ ic ≠ 0 then 1 else 0)) ∧
    (ic = 0 → truthyStr nt = false →
      (CharacterRelationship.update rel nt ic reason ch ts).evolution_history =
        rel.evolution_history) ∧
    (∀ (st : CharacterTracker) (cname target : String) (d : Option String) (k : String),
      ((update_relationship st cname target none 0 d reason ch ts).relationships k).map
          (fun l => l.map (fun r => r.evolution_history)) =
        (st.relationships k).map (fun l => l.map (fun r => r.evolution_history))) := by
  refine ⟨?_, ?_, ?_⟩
  · simp only [CharacterRelationship.update]
    by_cases hn : truthyStr nt = true
    · by_cases hne : nt.getD "" ≠ rel.relationship_type
      · have hne' : ¬ rel.relationship_type = nt.getD "" := fun h => hne h.symm
        simp [hn, hne, hne']
      · simp only [not_not] at hne
        by_cases hic : ic ≠ 0
        · simp [hn, hne, hic]
        · simp only [not_not] at hic
          simp [hn, hne, hic]
    · simp only [Bool.not_eq_true] at hn
      by_cases hic : ic ≠ 0
      · simp [hn, hic, truthyStr]
      · simp only [not_not] at hic
        simp [hn, hic]
  · intro hic hn
    simp [CharacterRelationship.update, hic, hn]
  · intro st cname target d k
    unfold update_relationship
    cases hg : get_relationship st cname target with
    | none => rfl
    | some r0 =>
      have hsome : ∃ l, st.relationships cname = some l := by
        unfold get_relationship at hg
        cases hm : st.relationships cname with
        | none => simp [hm] at hg
        | some l => exact ⟨l, rfl⟩
      rcases hsome with ⟨l, hl⟩
      dsimp only
      by_cases hk : k = cname
      · subst hk
        rw [mapSet_same, hl]
        simp only [Option.map_some']
        congr 1
        refine evolution_replaceFirst ?_ _
        intro r
        simp [CharacterRelationship.update, truthyStr]
      · rw [mapSet_other _ _ _ _ hk]

/-- Witness for `c4_amended` at concrete inputs: a no-op call leaves the
history untouched. -/
theorem c4_amended_witness :
    (CharacterRelationship.update relFull none 0 "" none "").evolution_history =
      relFull.evolution_history :=
  (c4_amended relFull none 0 "" none "").2.1 rfl rfl

/-! ## C2 -/

/-- Four-chapter project whose two history summary lines each have a
fractional token estimate (raw 6.5, counted 6), so that the newline join
pushes the layer estimate past the 20% sub-budget. -/
def projC2 : NovelProject :=
  { title := "t",
    chapters := [
      { title := "1", content := "", chapter_number := 1, summary := "23" },
      { title := "4", content := "", chapter_number := 2, summary := "56" },
      { title := "a", content := "", chapter_number := 3, summary := "x" },
      { title := "b", content := "", chapter_number := 4, summary := "y" }] }

set_option maxRecDepth 4000 in
/-- C2, counterexample: with `max_tokens = 60` the history sub-budget is
`int(60 * 0.2) = 12`, the accumulation loop accepts two lines of 6 tokens
each, but the newline-joined layer estimates to 13 tokens — the rendered
history-summary layer of `build_writing_context` exceeds 20% of `max_tokens`. -/
theorem c2_counterexample :
    (build_writing_context 60 projC2 2 5).historySummary =
      some "第1章《1》：23\n第2章《4》：56" ∧
    count_tokens "第1章《1》：23\n第2章《4》：56" = 13 ∧
    (60 : Int) / 5 = 12 ∧ ¬ ((13 : Int) ≤ 12) := by
  exact ⟨rfl, rfl, rfl, by decide⟩

theorem tokenSum_nil : tokenSum [] = 0 := rfl

theorem tokenSum_cons (x : String) (xs : List String) :
    tokenSum (x :: xs) = count_tokens x + tokenSum xs := by
  simp [tokenSum]

theorem tokenSum_reverse (l : List String) : tokenSum l.reverse = tokenSum l := by
  simp [tokenSum, List.sum_reverse]

theorem selectSummaryLines_le (b : Int) :
    ∀ (l : List Chapter) (cur : Int), cur ≤ b →
      cur + tokenSum (selectSummaryLines b cur l) ≤ b := by
  intro l
  induction l with
  | nil => intro cur h; simpa [selectSummaryLines, tokenSum_nil] using h
  | cons c rest ih =>
    intro cur h
    simp only [selectSummaryLines]
    split
    · simpa [tokenSum_nil] using h
    · rename_i hfit
      push_neg at hfit
      have := ih (cur + count_tokens (summaryLine c)) hfit
      rw [tokenSum_cons]
      omega

theorem recentParts_le (b : Int) :
    ∀ (l : List Chapter) (cur : Int), cur ≤ b → (recentParts b cur l).2 = false →
      cur + tokenSum (recentParts b cur l).1 ≤ b := by
  intro l
  induction l with
  | nil => intro cur h _; simpa [recentParts, tokenSum_nil] using h
  | cons c rest ih =>
    intro cur h hf
    by_cases htr : b - cur < count_tokens (chapterFullText c)
    · exfalso
      simp only [recentParts, if_pos htr] at hf
      split at hf
      · simp at hf; omega
      · rcases hp : recentParts b (cur + count_tokens (chapterTruncatedText c (b - cur))) rest
          with ⟨ps, f⟩
        rw [hp] at hf
        simp at hf
        omega
    · simp only [recentParts, if_neg htr] at hf ⊢
      push_neg at htr
      by_cases hbreak : b ≤ cur + count_tokens (chapterFullText c)
      · simp only [if_pos hbreak]
        rw [tokenSum_cons, tokenSum_nil]
        omega
      · simp only [if_neg hbreak] at hf ⊢
        rcases hp : recentParts b (cur + count_tokens (chapterFullText c)) rest with ⟨ps, f⟩
        simp only [Bool.or_eq_false_iff, decide_eq_false_iff_not] at hf
        have h2 := ih (cur + count_tokens (chapterFullText c)) (by omega) hf.2
        rw [hp] at h2
        rw [tokenSum_cons]
        simp only at h2 ⊢
        omega

/-- C2 (amended): the budgets bound the running sums the selection loops
actually track, not the rendered layer strings.  For every chapter list and
nonnegative sub-budget, the sum of the per-line token estimates of the
accepted history-summary lines is at most the history sub-budget, and — as
long as no chapter had to be truncated — the sum of the per-chapter token
estimates accumulated by the recent-content loop is at most its sub-budget.
The rendered layers additionally contain unbudgeted separators (and, for a
truncated chapter, an unbudgeted header and truncation marker), so their
estimates can exceed the sub-budget (see the counterexample). -/
theorem c2_amended (token_budget : Int) (chapters : List Chapter)
    (exclude_recent max_count : Nat) (h : 0 ≤ token_budget) :
    tokenSum (historySummaryParts chapters exclude_recent max_count token_budget) ≤
      token_budget ∧
    ((recentParts token_budget 0 chapters).2 = false →
      tokenSum (recentParts token_budget 0 chapters).1 ≤ token_budget) := by
  constructor
  · unfold historySummaryParts
    split
    · simpa [tokenSum_nil] using h
    · rw [tokenSum_reverse]
      simpa using selectSummaryLines_le token_budget _ 0 h
  · intro hf
    simpa using recentParts_le token_budget chapters 0 h hf

/-- Witness for `c2_amended` at concrete inputs. -/
theorem c2_amended_witness :
    tokenSum (historySummaryParts projC2.chapters 2 5 12) ≤ 12 ∧
    ((recentParts 12 0 projC2.chapters).2 = false →
      tokenSum (recentParts 12 0 projC2.chapters).1 ≤ 12) :=
  c2_amended 12 projC2.chapters 2 5 (by decide)

/-! ## C6 -/

/-- At most one relationship record per (owner, target) pair. -/
def RelTargetsUnique (st : CharacterTracker) : Prop :=
  ∀ cname l, st.relationships cname = some l →
    (l.map (fun r => r.target_character)).Nodup

/-- State reached by two `add_relationship` calls: `C` relates to both `A`
and `B`. -/
def stC6 : CharacterTracker :=
  add_relationship (add_relationship emptyTracker "C" "A" "friend" 50 "" none)
    "C" "B" "enemy" 40 "" none

/-- C6, counterexample: after `merge_character_data("A","B")` the reference
rewrite turns `C`'s two records into two records with the same target `B` —
the at-most-one-record-per-ordered-pair property is not preserved. -/
theorem c6_counterexample :
    (((merge_character_data stC6 "A" "B").relationships "C").getD []).map
      (fun r => r.target_character) = ["B", "B"] ∧
    ¬ (["B", "B"] : List String).Nodup := by
  exact ⟨rfl, by decide⟩

/-- C6 (amended): `add_relationship` and `update_relationship` preserve the
at-most-one-record-per-(owner, target) property; the reference rewrites of
`merge_character_data` and `rename_character` do not (when a third character
has relationships to both names, see the counterexample). -/
theorem c6_amended (st : CharacterTracker) (cname target ty : String) (intim : Int)
    (d : String) (fm : Option Int) (nt : Option String) (ic : Int) (dd : Option String)
    (reason : String) (ch : Option Int) (ts : String) (h : RelTargetsUnique st) :
    RelTargetsUnique (add_relationship st cname target ty intim d fm) ∧
    RelTargetsUnique (update_relationship st cname target nt ic dd reason ch ts) := by
  have hbase : ∀ l, st.relationships cname = none →
      l = (st.relationships cname).getD [] → (l.map (fun r => r.target_character)).Nodup := by
    intro l hnone hl
    rw [hnone] at hl
    simp [hl]
  constructor
  · intro name l hl
    unfold add_relationship at hl
    dsimp only at hl
    by_cases hk : name = cname
    · subst hk
      rw [mapSet_same] at hl
      have hl' := hl
      injection hl' with hv
      subst hv
      have hnodup : (((st.relationships name).getD []).map (fun r => r.target_character)).Nodup := by
        cases hm : st.relationships name with
        | none => simp [hm]
        | some l0 => exact h name l0 hm
      split
      · rw [map_replaceFirst]
        · exact hnodup
        · intro x; rfl
      · rename_i hfind
        rw [List.map_append]
        rw [List.nodup_append]
        refine ⟨hnodup, by simp, ?_⟩
        intro a ha hb
        simp at hb
        subst hb
        simp only [List.find?_isSome] at hfind
        simp at hfind ha
        rcases ha with ⟨r, hr, hrt⟩
        exact hfind r hr hrt
    · rw [mapSet_other _ _ _ _ hk] at hl
      exact h name l hl
  · intro name l hl
    unfold update_relationship at hl
    cases hg : get_relationship st cname target with
    | none => rw [hg] at hl; exact h name l hl
    | some r0 =>
      rw [hg] at hl
      dsimp only at hl
      by_cases hk : name = cname
      · subst hk
        rw [mapSet_same] at hl
        injection hl with hv
        subst hv
        have hnodup : (((st.relationships name).getD []).map (fun r => r.target_character)).Nodup := by
          cases hm : st.relationships name with
          | none => simp [hm]
          | some l0 => exact h name l0 hm
        rw [map_replaceFirst]
        · exact hnodup
        · intro x; rfl
      · rw [mapSet_other _ _ _ _ hk] at hl
        exact h name l hl

/-- Witness for `c6_amended` starting from the empty store. -/
theorem c6_amended_witness :
    RelTargetsUnique (add_relationship emptyTracker "A" "B" "friend" 50 "" none) ∧
    RelTargetsUnique (update_relationship emptyTracker "A" "B" none 0 none "" none "") :=
  c6_amended emptyTracker "A" "B" "friend" 50 "" none none 0 none "" none ""
    (fun _ _ hl => nomatch hl)

/-! ## Step lemmas for merge and rename -/

theorem mergeExpStep_source (source target : String) (st : CharacterTracker) :
    (mergeExpStep source target st).experiences source = none := by
  unfold mergeExpStep
  cases h : st.experiences source with
  | none => exact h
  | some la => simp [mapSet_same]

theorem mergeExpStep_target_len (source target : String) (st : CharacterTracker)
    (h : source ≠ target) :
    (((mergeExpStep source target st).experiences target).getD []).length =
      ((st.experiences target).getD []).length + ((st.experiences source).getD []).length := by
  unfold mergeExpStep
  cases hs : st.experiences source with
  | none => simp [hs]
  | some la =>
    have hne : target ≠ source := fun hh => h hh.symm
    simp only [mapSet_other _ _ _ _ hne, mapSet_same]
    have := List.perm_insertionSort expChapterLe ((st.experiences target).getD [] ++ la)
    simp [this.length_eq, hs]

theorem mergeExpStep_other (source target k : String) (st : CharacterTracker)
    (h1 : k ≠ source) (h2 : k ≠ target) :
    (mergeExpStep source target st).experiences k = st.experiences k := by
  unfold mergeExpStep
  cases hs : st.experiences source with
  | none => rfl
  | some la => simp [mapSet_other _ _ _ _ h1, mapSet_other _ _ _ _ h2]

theorem mergeExpStep_rest (source target : String) (st : CharacterTracker) :
    (mergeExpStep source target st).relationships = st.relationships ∧
    (mergeExpStep source target st).personality_traits = st.personality_traits ∧
    (mergeExpStep source target st).personality_evolution = st.personality_evolution := by
  unfold mergeExpStep
  cases st.experiences source <;> exact ⟨rfl, rfl, rfl⟩

theorem mergeRelStep_source (source target : String) (st : CharacterTracker) :
    (mergeRelStep source target st).relationships source = none := by
  unfold mergeRelStep
  cases h : st.relationships source with
  | none => exact h
  | some src => simp [mapSet_same]

theorem mergeRelStep_other (source target k : String) (st : CharacterTracker)
    (h1 : k ≠ source) (h2 : k ≠ target) :
    (mergeRelStep source target st).relationships k = st.relationships k := by
  unfold mergeRelStep
  cases hs : st.relationships source with
  | none => rfl
  | some src => simp [mapSet_other _ _ _ _ h1, mapSet_other _ _ _ _ h2]

theorem mergeRelStep_rest (source target : String) (st : CharacterTracker) :
    (mergeRelStep source target st).experiences = st.experiences ∧
    (mergeRelStep source target st).personality_traits = st.personality_traits ∧
    (mergeRelStep source target st).personality_evolution = st.personality_evolution := by
  unfold mergeRelStep
  cases st.relationships source <;> exact ⟨rfl, rfl, rfl⟩

theorem retargetStep_rel (source target k : String) (st : CharacterTracker) :
    (retargetStep source target st).relationships k =
      (st.relationships k).map (List.map (fun rel =>
        if rel.target_character = source then { rel with target_character := target }
        else rel)) := rfl

theorem retargetStep_rest (source target : String) (st : CharacterTracker) :
    (retargetStep source target st).experiences = st.experiences ∧
    (retargetStep source target st).personality_traits = st.personality_traits ∧
    (retargetStep source target st).personality_evolution = st.personality_evolution :=
  ⟨rfl, rfl, rfl⟩

theorem retargetStep_self (a : String) (st : CharacterTracker) :
    retargetStep a a st = st := by
  unfold retargetStep
  dsimp only
  have hf : ∀ rel : CharacterRelationship,
      (if rel.target_character = a then { rel with target_character := a } else rel) = rel := by
    intro rel
    split
    · rename_i h; cases rel; simp_all
    · rfl
  have hrel : (fun k => (st.relationships k).map (List.map (fun rel =>
      if rel.target_character = a then { rel with target_character := a } else rel))) =
      st.relationships := by
    funext k
    cases st.relationships k with
    | none => rfl
    | some l => simp [hf]
  rw [hrel]

theorem relatedRefsStep_exp (source target k : String) (st : CharacterTracker) :
    (relatedRefsStep source target st).experiences k =
      (st.experiences k).map (List.map (fun e =>
        { e with related_characters := mergeRelatedRefs source target e.related_characters })) := rfl

theorem relatedRefsStep_rest (source target : String) (st : CharacterTracker) :
    (relatedRefsStep source target st).relationships = st.relationships ∧
    (relatedRefsStep source target st).personality_traits = st.personality_traits ∧
    (relatedRefsStep source target st).personality_evolution = st.personality_evolution :=
  ⟨rfl, rfl, rfl⟩

theorem mergeTraitsStep_source (source target : String) (st : CharacterTracker) :
    (mergeTraitsStep source target st).personality_traits source = none := by
  unfold mergeTraitsStep
  cases h : st.personality_traits source with
  | none => exact h
  | some src => simp [mapSet_same]

theorem mergeTraitsStep_other (source target k : String) (st : CharacterTracker)
    (h1 : k ≠ source) (h2 : k ≠ target) :
    (mergeTraitsStep source target st).personality_traits k = st.personality_traits k := by
  unfold mergeTraitsStep
  cases hs : st.personality_traits source with
  | none => rfl
  | some src => simp [mapSet_other _ _ _ _ h1, mapSet_other _ _ _ _ h2]

theorem mergeTraitsStep_rest (source target : String) (st : CharacterTracker) :
    (mergeTraitsStep source target st).experiences = st.experiences ∧
    (mergeTraitsStep source target st).relationships = st.relationships ∧
    (mergeTraitsStep source target st).personality_evolution = st.personality_evolution := by
  unfold mergeTraitsStep
  cases st.personality_traits source <;> exact ⟨rfl, rfl, rfl⟩

theorem mergeEvoStep_source (source target : String) (st : CharacterTracker) :
    (mergeEvoStep source target st).personality_evolution source = none := by
  unfold mergeEvoStep
  cases h : st.personality_evolution source with
  | none => exact h
  | some src => simp [mapSet_same]

theorem mergeEvoStep_other (source target k : String) (st : CharacterTracker)
    (h1 : k ≠ source) (h2 : k ≠ target) :
    (mergeEvoStep source target st).personality_evolution k = st.personality_evolution k := by
  unfold mergeEvoStep
  cases hs : st.personality_evolution source with
  | none => rfl
  | some src => simp [mapSet_other _ _ _ _ h1, mapSet_other _ _ _ _ h2]

theorem mergeEvoStep_rest (source target : String) (st : CharacterTracker) :
    (mergeEvoStep source target st).experiences = st.experiences ∧
    (mergeEvoStep source target st).relationships = st.relationships ∧
    (mergeEvoStep source target st).personality_traits = st.personality_traits := by
  unfold mergeEvoStep
  cases st.personality_evolution source <;> exact ⟨rfl, rfl, rfl⟩

theorem renameKey_old_none {α : Type} (m : StrMap α) (old_name new_name : String) :
    renameKey m old_name new_name old_name = none := by
  unfold renameKey
  cases hm : m old_name with
  | none => simp [hm]
  | some l => simp [mapSet_same]

theorem renameKey_new {α : Type} (m : StrMap α) (old_name new_name : String) (l : α)
    (h : old_name ≠ new_name) (hm : m old_name = some l) :
    renameKey m old_name new_name new_name = some l := by
  unfold renameKey
  rw [hm]
  dsimp only
  rw [mapSet_other _ _ _ _ (fun hh => h hh.symm), mapSet_same]

theorem renameKey_other {α : Type} (m : StrMap α) (old_name new_name k : String)
    (h1 : k ≠ old_name) (h2 : k ≠ new_name) :
    renameKey m old_name new_name k = m k := by
  unfold renameKey
  cases hm : m old_name with
  | none => rfl
  | some l =>
    dsimp only
    rw [mapSet_other _ _ _ _ h1, mapSet_other _ _ _ _ h2]

theorem renameExpStep_rest (o n : String) (st : CharacterTracker) :
    (renameExpStep o n st).relationships = st.relationships ∧
    (renameExpStep o n st).personality_traits = st.personality_traits ∧
    (renameExpStep o n st).personality_evolution = st.personality_evolution :=
  ⟨rfl, rfl, rfl⟩

theorem renameRelStep_rest (o n : String) (st : CharacterTracker) :
    (renameRelStep o n st).experiences = st.experiences ∧
    (renameRelStep o n st).personality_traits = st.personality_traits ∧
    (renameRelStep o n st).personality_evolution = st.personality_evolution :=
  ⟨rfl, rfl, rfl⟩

theorem renameRefsStep_exp (o n k : String) (st : CharacterTracker) :
    (renameRefsStep o n st).experiences k =
      (st.experiences k).map (List.map (renameRelatedRewrite o n)) := rfl

theorem renameRefsStep_rest (o n : String) (st : CharacterTracker) :
    (renameRefsStep o n st).relationships = st.relationships ∧
    (renameRefsStep o n st).personality_traits = st.personality_traits ∧
    (renameRefsStep o n st).personality_evolution = st.personality_evolution :=
  ⟨rfl, rfl, rfl⟩

theorem renameTraitsStep_rest (o n : String) (st : CharacterTracker) :
    (renameTraitsStep o n st).experiences = st.experiences ∧
    (renameTraitsStep o n st).relationships = st.relationships ∧
    (renameTraitsStep o n st).personality_evolution = st.personality_evolution :=
  ⟨rfl, rfl, rfl⟩

theorem renameEvoStep_rest (o n : String) (st : CharacterTracker) :
    (renameEvoStep o n st).experiences = st.experiences ∧
    (renameEvoStep o n st).relationships = st.relationships ∧
    (renameEvoStep o n st).personality_traits = st.personality_traits :=
  ⟨rfl, rfl, rfl⟩

theorem option_map_getD_length {α β : Type} (o : Option (List α)) (f : α → β) :
    (((o.map (List.map f)).getD []).length) = ((o.getD []).length) := by
  cases o <;> simp

theorem option_map_map_length {α β : Type} (o : Option (List α)) (f : α → β) :
    ((o.map (List.map f)).map List.length) = o.map List.length := by
  cases o <;> simp

/-! ## C5 -/

def exp5 : CharacterExperience :=
  { chapter_number := 1, event_type := "growth", description := "d", timestamp := "t" }

def stC5 : CharacterTracker :=
  { emptyTracker with experiences := fun k => if k = "X" then some [exp5] else none }

/-- C5, counterexample: with `A = B = "X"` (the claim quantifies over *all*
names A and B) `merge_character_data` first doubles the list under the key and
then deletes the key, so the experience count under B afterwards is 0, not
`len(A before) + len(B before) = 2`. -/
theorem c5_counterexample :
    (((merge_character_data stC5 "X" "X").experiences "X").getD []).length = 0 ∧
    ((stC5.experiences "X").getD []).length + ((stC5.experiences "X").getD []).length = 2 ∧
    ¬ ((0 : Nat) = 2) := by
  exact ⟨rfl, rfl, by decide⟩

/-- C5 (amended): for *distinct* names `A ≠ B`, `merge_character_data(A, B)`
preserves the total experience count under `B` and removes `A` from all four
mappings. -/
theorem c5_amended (st : CharacterTracker) (A B : String) (h : A ≠ B) :
    (((merge_character_data st A B).experiences B).getD []).length =
      ((st.experiences A).getD []).length + ((st.experiences B).getD []).length ∧
    (merge_character_data st A B).experiences A = none ∧
    (merge_character_data st A B).relationships A = none ∧
    (merge_character_data st A B).personality_traits A = none ∧
    (merge_character_data st A B).personality_evolution A = none := by
  unfold merge_character_data
  have e6 := fun x => (mergeEvoStep_rest A B x).1
  have e5 := fun x => (mergeTraitsStep_rest A B x).1
  have e3 := fun x => (retargetStep_rest A B x).1
  have e2 := fun x => (mergeRelStep_rest A B x).1
  have r6 := fun x => (mergeEvoStep_rest A B x).2.1
  have r5 := fun x => (mergeTraitsStep_rest A B x).2.1
  have r4 := fun x => (relatedRefsStep_rest A B x).1
  have r1 := fun x => (mergeExpStep_rest A B x).1
  have t6 := fun x => (mergeEvoStep_rest A B x).2.2
  refine ⟨?_, ?_, ?_, ?_, ?_⟩
  · rw [e6, e5, relatedRefsStep_exp, e3, e2, option_map_getD_length,
      mergeExpStep_target_len A B st h]
    omega
  · rw [e6, e5, relatedRefsStep_exp, e3, e2, mergeExpStep_source]
    rfl
  · rw [r6, r5, r4, retargetStep_rel, mergeRelStep_source]
    rfl
  · rw [t6, mergeTraitsStep_source]
  · rw [mergeEvoStep_source]

/-- Witness for `c5_amended` at concrete inputs. -/
theorem c5_amended_witness :
    (((merge_character_data stC5 "X" "Y").experiences "Y").getD []).length =
      ((stC5.experiences "X").getD []).length + ((stC5.experiences "Y").getD []).length ∧
    (merge_character_data stC5 "X" "Y").experiences "X" = none ∧
    (merge_character_data stC5 "X" "Y").relationships "X" = none ∧
    (merge_character_data stC5 "X" "Y").personality_traits "X" = none ∧
    (merge_character_data stC5 "X" "Y").personality_evolution "X" = none :=
  c5_amended stC5 "X" "Y" (by decide)

/-! ## C10 -/

/-- C10: `merge_character_data(A, A)` deletes `A`'s key from all four mappings
(losing the data — nothing is relocated: every other key keeps its records),
while `rename_character(A, A)` is guarded and leaves the store unchanged. -/
theorem c10_confirmed (st : CharacterTracker) (A : String)
    (la : List CharacterExperience) (hA : st.experiences A = some la) :
    (merge_character_data st A A).experiences A = none ∧
    (merge_character_data st A A).relationships A = none ∧
    (merge_character_data st A A).personality_traits A = none ∧
    (merge_character_data st A A).personality_evolution A = none ∧
    (∀ k, k ≠ A → ((merge_character_data st A A).experiences k).map List.length =
      (st.experiences k).map List.length) ∧
    (∀ k, k ≠ A → (merge_character_data st A A).relationships k = st.relationships k) ∧
    (∀ k, k ≠ A → (merge_character_data st A A).personality_traits k = st.personality_traits k) ∧
    (∀ k, k ≠ A → (merge_character_data st A A).personality_evolution k = st.personality_evolution k) ∧
    rename_character st A A = st := by
  unfold merge_character_data
  rw [retargetStep_self]
  have e6 := fun x => (mergeEvoStep_rest A A x).1
  have e5 := fun x => (mergeTraitsStep_rest A A x).1
  have e2 := fun x => (mergeRelStep_rest A A x).1
  have r6 := fun x => (mergeEvoStep_rest A A x).2.1
  have r5 := fun x => (mergeTraitsStep_rest A A x).2.1
  have r4 := fun x => (relatedRefsStep_rest A A x).1
  have r1 := fun x => (mergeExpStep_rest A A x).1
  have t6 := fun x => (mergeEvoStep_rest A A x).2.2
  have t4 := fun x => (relatedRefsStep_rest A A x).2.1
  have t2 := fun x => (mergeRelStep_rest A A x).2.1
  have t1 := fun x => (mergeExpStep_rest A A x).2.1
  have v5 := fun x => (mergeTraitsStep_rest A A x).2.2
  have v4 := fun x => (relatedRefsStep_rest A A x).2.2
  have v2 := fun x => (mergeRelStep_rest A A x).2.2
  have v1 := fun x => (mergeExpStep_rest A A x).2.2
  refine ⟨?_, ?_, ?_, ?_, ?_, ?_, ?_, ?_, ?_⟩
  · rw [e6, e5, relatedRefsStep_exp, e2, mergeExpStep_source]
    rfl
  · rw [r6, r5, r4, mergeRelStep_source]
  · rw [t6, mergeTraitsStep_source]
  · rw [mergeEvoStep_source]
  · intro k hk
    rw [e6, e5, relatedRefsStep_exp, e2, mergeExpStep_other A A k st hk hk,
      option_map_map_length]
  · intro k hk
    rw [r6, r5, r4, mergeRelStep_other A A k _ hk hk, r1]
  · intro k hk
    rw [t6, mergeTraitsStep_other A A k _ hk hk, t4, t2, t1]
  · intro k hk
    rw [mergeEvoStep_other A A k _ hk hk, v5, v4, v2, v1]
  · simp [rename_character]

/-- Witness for `c10_confirmed` at concrete inputs. -/
theorem c10_confirmed_witness :
    (merge_character_data stC5 "X" "X").experiences "X" = none ∧
    (merge_character_data stC5 "X" "X").relationships "X" = none ∧
    (merge_character_data stC5 "X" "X").personality_traits "X" = none ∧
    (merge_character_data stC5 "X" "X").personality_evolution "X" = none ∧
    (∀ k, k ≠ "X" → ((merge_character_data stC5 "X" "X").experiences k).map List.length =
      (stC5.experiences k).map List.length) ∧
    (∀ k, k ≠ "X" → (merge_character_data stC5 "X" "X").relationships k = stC5.relationships k) ∧
    (∀ k, k ≠ "X" → (merge_character_data stC5 "X" "X").personality_traits k = stC5.personality_traits k) ∧
    (∀ k, k ≠ "X" → (merge_character_data stC5 "X" "X").personality_evolution k = stC5.personality_evolution k) ∧
    rename_character stC5 "X" "X" = stC5 :=
  c10_confirmed stC5 "X" [exp5] rfl

/-! ## C8 -/

def expOld : CharacterExperience :=
  { chapter_number := 1, event_type := "growth", description := "e1" }

def expNew : CharacterExperience :=
  { chapter_number := 2, event_type := "growth", description := "e2" }

def expDup : CharacterExperience :=
  { chapter_number := 3, event_type := "relationship", description := "e3",
    related_characters := ["老李", "老李"] }

def stC8 : CharacterTracker :=
  { emptyTracker with experiences := fun k =>
      if k = "C" then some [expDup]
      else if k = "老李" then some [expOld]
      else if k = "李明" then some [expNew]
      else none }

/-- C8, counterexample: `rename_character` rewrites only the *first*
occurrence of the old name in an experience's `related_characters`
(`index` + single assignment), so when an experience lists `"老李"` twice a
reference to the old name survives the rename — the claim's "references …
are rewritten to new_name" fails. -/
theorem c8_counterexample :
    (((rename_character stC8 "老李" "李明").experiences "C").getD []).map
      (fun e => e.related_characters) = [["李明", "老李"]] ∧
    "老李" ∈ (["李明", "老李"] : List String) := by
  exact ⟨rfl, by decide⟩

/-- C8 (amended): for `old ≠ new`, when `old` has experiences `la` (m ≥ 1 of
them) and `new` has experiences `lb`, after `rename_character(old, new)`
exactly `la` (with the *first* occurrence of `old` in each experience's
`related_characters` rewritten — later duplicates are left) is stored under
`new` (`lb` is discarded — overwrite, not union), `old` is absent from all
four mappings, and no relationship of any character targets `old` any more. -/
theorem c8_amended (st : CharacterTracker) (old_name new_name : String)
    (la lb : List CharacterExperience) (h : old_name ≠ new_name)
    (hA : st.experiences old_name = some la) (hm : 1 ≤ la.length)
    (hB : st.experiences new_name = some lb) :
    (rename_character st old_name new_name).experiences new_name =
      some (la.map (renameRelatedRewrite old_name new_name)) ∧
    (((rename_character st old_name new_name).experiences new_name).getD []).length =
      la.length ∧
    (rename_character st old_name new_name).experiences old_name = none ∧
    (rename_character st old_name new_name).relationships old_name = none ∧
    (rename_character st old_name new_name).personality_traits old_name = none ∧
    (rename_character st old_name new_name).personality_evolution old_name = none ∧
    (∀ k l r, (rename_character st old_name new_name).relationships k = some l →
      r ∈ l → r.target_character ≠ old_name) := by
  unfold rename_character
  rw [if_neg h]
  have e6 := fun x => (renameEvoStep_rest old_name new_name x).1
  have e5 := fun x => (renameTraitsStep_rest old_name new_name x).1
  have e3 := fun x => (retargetStep_rest old_name new_name x).1
  have e2 := fun x => (renameRelStep_rest old_name new_name x).1
  have r6 := fun x => (renameEvoStep_rest old_name new_name x).2.1
  have r5 := fun x => (renameTraitsStep_rest old_name new_name x).2.1
  have r4 := fun x => (renameRefsStep_rest old_name new_name x).1
  have hexp : ∀ k, (renameExpStep old_name new_name st).experiences k =
      renameKey st.experiences old_name new_name k := fun _ => rfl
  have hnew : (rename_character st old_name new_name).experiences new_name =
      some (la.map (renameRelatedRewrite old_name new_name)) := by
    unfold rename_character
    rw [if_neg h]
    rw [e6, e5, renameRefsStep_exp, e3, e2, hexp,
      renameKey_new st.experiences old_name new_name la h hA]
    rfl
  refine ⟨?_, ?_, ?_, ?_, ?_, ?_, ?_⟩
  · rw [e6, e5, renameRefsStep_exp, e3, e2, hexp,
      renameKey_new st.experiences old_name new_name la h hA]
    rfl
  · rw [e6, e5, renameRefsStep_exp, e3, e2, hexp,
      renameKey_new st.experiences old_name new_name la h hA]
    simp
  · rw [e6, e5, renameRefsStep_exp, e3, e2, hexp, renameKey_old_none]
    rfl
  · have hrel : ∀ (x : CharacterTracker) k, (renameRelStep old_name new_name x).relationships k =
        renameKey x.relationships old_name new_name k := fun _ _ => rfl
    rw [r6, r5, r4, retargetStep_rel, hrel, renameKey_old_none]
    rfl
  · have htr : ∀ (x : CharacterTracker) k, (renameTraitsStep old_name new_name x).personality_traits k =
        renameKey x.personality_traits old_name new_name k := fun _ _ => rfl
    rw [(renameEvoStep_rest old_name new_name _).2.2, htr, renameKey_old_none]
  · have hevo : ∀ (x : CharacterTracker) k, (renameEvoStep old_name new_name x).personality_evolution k =
        renameKey x.personality_evolution old_name new_name k := fun _ _ => rfl
    rw [hevo, renameKey_old_none]
  · intro k l r hl hr
    rw [r6, r5, r4, retargetStep_rel] at hl
    cases hsrc : (renameRelStep old_name new_name (renameExpStep old_name new_name st)).relationships k with
    | none => rw [hsrc] at hl; simp at hl
    | some l0 =>
      rw [hsrc] at hl
      simp only [Option.map_some', Option.some.injEq] at hl
      subst hl
      rcases List.mem_map.mp hr with ⟨r0, _, hr0⟩
      subst hr0
      by_cases ht : r0.target_character = old_name
      · simp only [ht, if_pos rfl]
        exact fun hh => h hh.symm
      · simp only [if_neg ht]
        exact ht

/-- Witness for `c8_amended` at concrete inputs. -/
theorem c8_amended_witness :
    (rename_character stC8 "老李" "李明").experiences "李明" =
      some ([expOld].map (renameRelatedRewrite "老李" "李明")) ∧
    (((rename_character stC8 "老李" "李明").experiences "李明").getD []).length =
      ([expOld] : List CharacterExperience).length ∧
    (rename_character stC8 "老李" "李明").experiences "老李" = none ∧
    (rename_character stC8 "老李" "李明").relationships "老李" = none ∧
    (rename_character stC8 "老李" "李明").personality_traits "老李" = none ∧
    (rename_character stC8 "老李" "李明").personality_evolution "老李" = none ∧
    (∀ k l r, (rename_character stC8 "老李" "李明").relationships k = some l →
      r ∈ l → r.target_character ≠ "老李") :=
  c8_amended stC8 "老李" "李明" [expOld] [expNew] (by decide) rfl (by decide) rfl

/-! ## C3 -/

/-- The intended timeline order: non-decreasing chapter, ties broken by
timestamp (on items whose chapter is an integer, `Option.getD 0` is that
integer). -/
def tlLe (a b : TimelineItem) : Prop :=
  a.chapter.getD 0 < b.chapter.getD 0 ∨
    (a.chapter.getD 0 = b.chapter.getD 0 ∧ a.timestamp ≤ b.timestamp)

instance : DecidableRel tlLe := fun a b =>
  inferInstanceAs (Decidable (a.chapter.getD 0 < b.chapter.getD 0 ∨
    (a.chapter.getD 0 = b.chapter.getD 0 ∧ a.timestamp ≤ b.timestamp)))

instance : IsTotal TimelineItem tlLe := ⟨by
  intro a b
  unfold tlLe
  rcases lt_trichotomy (a.chapter.getD 0) (b.chapter.getD 0) with hh | hh | hh
  · exact Or.inl (Or.inl hh)
  · rcases le_total a.timestamp b.timestamp with ht | ht
    · exact Or.inl (Or.inr ⟨hh, ht⟩)
    · exact Or.inr (Or.inr ⟨hh.symm, ht⟩)
  · exact Or.inr (Or.inl hh)⟩

instance : IsTrans TimelineItem tlLe := ⟨by
  intro a b c hab hbc
  unfold tlLe at *
  rcases hab with h1 | ⟨h1, h1t⟩ <;> rcases hbc with h2 | ⟨h2, h2t⟩
  · exact Or.inl (lt_trans h1 h2)
  · exact Or.inl (h2 ▸ h1)
  · exact Or.inl (h1 ▸ h2)
  · exact Or.inr ⟨h1.trans h2, le_trans h1t h2t⟩⟩

/-- On items with integer chapters the Python key comparison never raises and
decides exactly the negation of `tlLe` (the insertion condition). -/
theorem pyKeyLt_eq (a b : TimelineItem) (ha : a.chapter.isSome) (hb : b.chapter.isSome) :
    pyKeyLt (itemKey b) (itemKey a) = Except.ok (decide (¬ tlLe a b)) := by
  obtain ⟨x, hx⟩ := Option.isSome_iff_exists.mp ha
  obtain ⟨y, hy⟩ := Option.isSome_iff_exists.mp hb
  unfold pyKeyLt itemKey tlLe
  simp only [hx, hy, Option.getD_some]
  by_cases hxy : y = x
  · subst hxy
    have h1 : ¬ (y < y ∨ y = y ∧ a.timestamp ≤ b.timestamp) ↔ b.timestamp < a.timestamp := by
      constructor
      · intro hn
        by_contra hnlt
        push_neg at hnlt
        exact hn (Or.inr ⟨rfl, hnlt⟩)
      · intro hlt hcon
        rcases hcon with hc | ⟨_, hle⟩
        · exact lt_irrefl _ hc
        · exact absurd hle (not_le.mpr hlt)
    simp [h1]
  · have h2 : ¬ (x < y ∨ x = y ∧ a.timestamp ≤ b.timestamp) ↔ y < x := by
      constructor
      · intro hn
        rcases lt_trichotomy y x with hh | hh | hh
        · exact hh
        · exact absurd hh hxy
        · exact absurd (Or.inl hh) hn
      · intro hyx hcon
        rcases hcon with hc | ⟨hc, _⟩
        · exact absurd (lt_trans hc hyx) (lt_irrefl _)
        · exact hxy hc.symm
    have hne : ¬ ((some y : Option Int) = some x) := by simpa using hxy
    rw [if_neg hne]
    show Except.ok (decide (y < x)) = Except.ok (decide (¬ (x < y ∨ x = y ∧ a.timestamp ≤ b.timestamp)))
    congr 1
    exact decide_eq_decide.mpr h2.symm

theorem orderedInsertE_eq (a : TimelineItem) (l : List TimelineItem)
    (ha : a.chapter.isSome) (hl : ∀ x ∈ l, x.chapter.isSome) :
    orderedInsertE a l = Except.ok (List.orderedInsert tlLe a l) := by
  induction l with
  | nil => rfl
  | cons b t ih =>
    have hb := hl b (by simp)
    have ht : ∀ x ∈ t, x.chapter.isSome := fun x hx => hl x (by simp [hx])
    simp only [orderedInsertE, pyKeyLt_eq a b ha hb, List.orderedInsert]
    by_cases htl : tlLe a b
    · have hd : decide (¬ tlLe a b) = false := by simp [htl]
      rw [hd, if_pos htl]
      rfl
    · have hd : decide (¬ tlLe a b) = true := by simp [htl]
      rw [hd, if_neg htl]
      show List.cons b <$> orderedInsertE a t = Except.ok (b :: List.orderedInsert tlLe a t)
      rw [ih ht]
      rfl

theorem pySortTimeline_eq (l : List TimelineItem) (hl : ∀ x ∈ l, x.chapter.isSome) :
    pySortTimeline l = Except.ok (List.insertionSort tlLe l) := by
  induction l with
  | nil => rfl
  | cons x xs ih =>
    have hx := hl x (by simp)
    have hxs : ∀ y ∈ xs, y.chapter.isSome := fun y hy => hl y (by simp [hy])
    have hsorted : ∀ y ∈ List.insertionSort tlLe xs, y.chapter.isSome := by
      intro y hy
      exact hxs y ((List.perm_insertionSort tlLe xs).mem_iff.mp hy)
    simp only [pySortTimeline, ih hxs, List.insertionSort]
    show orderedInsertE x (List.insertionSort tlLe xs) =
      Except.ok (List.orderedInsert tlLe x (List.insertionSort tlLe xs))
    exact orderedInsertE_eq x _ hx hsorted

def entC3 : EvolutionEntry :=
  { chapter := none, timestamp := "t2", old_type := "friend", new_type := "friend",
    old_intimacy := 50, new_intimacy := 60, reason := "" }

def relC3 : CharacterRelationship :=
  { target_character := "B", relationship_type := "friend", intimacy_level := 50,
    description := "", evolution_history := [entC3] }

def expC3 : CharacterExperience :=
  { chapter_number := 1, event_type := "growth", description := "d", timestamp := "t1" }

def stC3 : CharacterTracker :=
  { experiences := fun k => if k = "A" then some [expC3] else none,
    relationships := fun k => if k = "A" then some [relC3] else none,
    personality_traits := fun _ => none,
    personality_evolution := fun _ => none }

/-- C3, counterexample: one experience (chapter 1) plus one relationship
evolution entry whose `chapter` is `None` make the sort key comparison
`(None, ts) < (1, ts)` raise `TypeError` — a `None` chapter is *not* ordered
as chapter 0, and `get_character_timeline` raises instead of returning. -/
theorem c3_counterexample :
    get_character_timeline stC3 "A" = Except.error () := rfl

/-- C3 (amended): when every relationship-evolution entry of the character has
an integer (non-`None`) chapter, `get_character_timeline` returns without
raising, and the returned list is sorted non-decreasingly by chapter with ties
broken by timestamp; when a `None` chapter meets an integer one the comparison
raises `TypeError` (see the counterexample). -/
theorem c3_amended (st : CharacterTracker) (cname : String)
    (h : ∀ rel ∈ get_all_relationships st cname, ∀ e ∈ rel.evolution_history,
      e.chapter.isSome) :
    ∃ out, get_character_timeline st cname = Except.ok out ∧ out.Pairwise tlLe := by
  unfold get_character_timeline
  dsimp only
  have hall : ∀ x ∈ ((get_character_experiences st cname).map expItem ++
      (get_all_relationships st cname).flatMap
        (fun rel => rel.evolution_history.map (relItem rel)) ++
      (get_personality_evolution st cname).map evoItem), x.chapter.isSome := by
    intro x hx
    rcases List.mem_append.mp hx with hx12 | hx3
    · rcases List.mem_append.mp hx12 with hx1 | hx2
      · rcases List.mem_map.mp hx1 with ⟨e, _, he⟩
        subst he
        rfl
      · rcases List.mem_flatMap.mp hx2 with ⟨rel, hrel, hxm⟩
        rcases List.mem_map.mp hxm with ⟨e, he, hxe⟩
        subst hxe
        exact h rel hrel e he
    · rcases List.mem_map.mp hx3 with ⟨e, _, he⟩
      subst he
      rfl
  exact ⟨_, pySortTimeline_eq _ hall, List.sorted_insertionSort tlLe _⟩

def entC3ok : EvolutionEntry :=
  { chapter := some 2, timestamp := "t2", old_type := "friend", new_type := "friend",
    old_intimacy := 50, new_intimacy := 60, reason := "" }

def stC3ok : CharacterTracker :=
  { stC3 with relationships := fun k =>
      if k = "A" then some [{ relC3 with evolution_history := [entC3ok] }] else none }

/-- Witness for `c3_amended` at concrete inputs. -/
theorem c3_amended_witness :
    ∃ out, get_character_timeline stC3ok "A" = Except.ok out ∧ out.Pairwise tlLe :=
  c3_amended stC3ok "A" (by decide)

/-! ## C9 -/

theorem splitRuns_ne_nil : ∀ l : List Char, splitRuns l ≠ [] := by
  intro l
  induction l with
  | nil => simp [splitRuns]
  | cons c rest ih =>
    simp only [splitRuns]
    split
    · simp
    · cases h : splitRuns rest with
      | nil => simp
      | cons r rs => simp

theorem mem_splitRuns_no_sep :
    ∀ (l : List Char) (r : List Char), r ∈ splitRuns l → ∀ c ∈ r, isSentenceSep c = false := by
  intro l
  induction l with
  | nil =>
    intro r hr c hc
    simp [splitRuns] at hr
    subst hr
    simp at hc
  | cons a rest ih =>
    intro r hr c hc
    simp only [splitRuns] at hr
    by_cases ha : isSentenceSep a
    · rw [if_pos ha] at hr
      rcases List.mem_cons.mp hr with h | h
      · subst h; simp at hc
      · exact ih r h c hc
    · rw [if_neg ha] at hr
      cases hsr : splitRuns rest with
      | nil => exact absurd hsr (splitRuns_ne_nil rest)
      | cons r0 rs =>
        rw [hsr] at hr
        rcases List.mem_cons.mp hr with h | h
        · subst h
          rcases List.mem_cons.mp hc with h' | h'
          · subst h'
            simpa using ha
          · exact ih (r0) (by rw [hsr]; simp) c h'
        · exact ih r (by rw [hsr]; simp [h]) c hc

theorem head?_dropWhile_not {α : Type} (p : α → Bool) :
    ∀ (l : List α) (c : α), (l.dropWhile p).head? = some c → p c = false := by
  intro l
  induction l with
  | nil => intro c h; simp [List.dropWhile] at h
  | cons a rest ih =>
    intro c h
    cases ha : p a with
    | true =>
      simp only [List.dropWhile, ha] at h
      exact ih c h
    | false =>
      simp only [List.dropWhile, ha] at h
      simp at h
      subst h
      exact ha

theorem dropWhile_eq_self_of_head {α : Type} (p : α → Bool) (l : List α)
    (h : ∀ c, l.head? = some c → p c = false) : l.dropWhile p = l := by
  cases l with
  | nil => rfl
  | cons a rest =>
    have := h a rfl
    simp [List.dropWhile, this]

theorem dropWhile_idem {α : Type} (p : α → Bool) (l : List α) :
    (l.dropWhile p).dropWhile p = l.dropWhile p :=
  dropWhile_eq_self_of_head p _ (fun c hc => head?_dropWhile_not p l c hc)

theorem prefix_head {α : Type} {l₁ l₂ : List α} (h : l₁ <+: l₂) (hn : l₁ ≠ []) :
    l₁.head? = l₂.head? := by
  rcases h with ⟨t, rfl⟩
  cases l₁ with
  | nil => exact absurd rfl hn
  | cons a t' => rfl

theorem pyStrip_prefixOf (l : List Char) : pyStrip l <+: l.dropWhile Char.isWhitespace := by
  unfold pyStrip
  have h1 : ((l.dropWhile Char.isWhitespace).reverse.dropWhile Char.isWhitespace) <:+
      (l.dropWhile Char.isWhitespace).reverse := List.dropWhile_suffix _
  have h2 := h1.reverse
  simpa using h2

theorem pyStrip_mem (l : List Char) (c : Char) (hc : c ∈ pyStrip l) : c ∈ l := by
  have h1 := (pyStrip_prefixOf l).sublist.subset hc
  exact ((List.dropWhile_suffix _).sublist.subset) h1

theorem pyStrip_head (l : List Char) (c : Char) (h : (pyStrip l).head? = some c) :
    Char.isWhitespace c = false := by
  have hne : pyStrip l ≠ [] := by
    intro he
    rw [he] at h
    simp at h
  have := prefix_head (pyStrip_prefixOf l) hne
  rw [this] at h
  exact head?_dropWhile_not _ _ _ h

theorem pyStrip_idem (l : List Char) : pyStrip (pyStrip l) = pyStrip l := by
  have hdw : (pyStrip l).dropWhile Char.isWhitespace = pyStrip l :=
    dropWhile_eq_self_of_head _ _ (fun c hc => pyStrip_head l c hc)
  show ((((pyStrip l).dropWhile Char.isWhitespace).reverse.dropWhile Char.isWhitespace).reverse) = pyStrip l
  rw [hdw]
  unfold pyStrip
  rw [List.reverse_reverse, dropWhile_idem]

theorem splitRuns_append (x : List Char) (rest : List Char)
    (hx : ∀ c ∈ x, isSentenceSep c = false) :
    splitRuns (x ++ '。' :: rest) = x :: splitRuns rest := by
  induction x with
  | nil =>
    simp only [List.nil_append, splitRuns]
    rw [if_pos (by decide)]
  | cons a x' ih =>
    have ha : isSentenceSep a = false := hx a (by simp)
    have hx' : ∀ c ∈ x', isSentenceSep c = false := fun c hc => hx c (by simp [hc])
    simp only [List.cons_append, splitRuns]
    rw [if_neg (by simp [ha])]
    simp only [List.append_eq]
    rw [ih hx']

theorem splitSentencesL_props (l : List Char) (x : List Char) (hx : x ∈ splitSentencesL l) :
    x ≠ [] ∧ (∀ c ∈ x, isSentenceSep c = false) ∧ pyStrip x = x := by
  unfold splitSentencesL at hx
  rcases List.mem_filter.mp hx with ⟨hmem, hne⟩
  rcases List.mem_map.mp hmem with ⟨r, hr, hxr⟩
  subst hxr
  refine ⟨by simpa using hne, ?_, pyStrip_idem r⟩
  intro c hc
  exact mem_splitRuns_no_sep l r hr c (pyStrip_mem r c hc)

theorem takeSentences_prefixOf (lim : Int) :
    ∀ (ss : List (List Char)) (cur : Int), takeSentences lim cur ss <+: ss := by
  intro ss
  induction ss with
  | nil => intro cur; simp [takeSentences]
  | cons s rest ih =>
    intro cur
    simp only [takeSentences]
    split
    · exact List.nil_prefix
    · obtain ⟨t, ht⟩ := ih (cur + countTokensL s)
      exact ⟨t, by rw [List.cons_append, ht]⟩

theorem splitSentencesL_join (ss : List (List Char))
    (hss : ∀ x ∈ ss, x ≠ [] ∧ (∀ c ∈ x, isSentenceSep c = false) ∧ pyStrip x = x) :
    splitSentencesL (joinChar '。' ss ++ ['。']) = ss := by
  induction ss with
  | nil =>
    simp only [joinChar, List.nil_append]
    rfl
  | cons x rest ih =>
    have hx := hss x (by simp)
    have hrest : ∀ y ∈ rest, y ≠ [] ∧ (∀ c ∈ y, isSentenceSep c = false) ∧ pyStrip y = y :=
      fun y hy => hss y (by simp [hy])
    cases rest with
    | nil =>
      simp only [joinChar]
      unfold splitSentencesL
      rw [splitRuns_append x [] hx.2.1]
      simp only [List.map_cons, List.filter]
      rw [hx.2.2]
      simp [hx.1, splitRuns, pyStrip, List.dropWhile]
    | cons y rest' =>
      have hjoin : joinChar '。' (x :: y :: rest') ++ ['。'] =
          x ++ '。' :: (joinChar '。' (y :: rest') ++ ['。']) := by
        simp [joinChar]
      rw [hjoin]
      unfold splitSentencesL
      rw [splitRuns_append x _ hx.2.1]
      simp only [List.map_cons, List.filter]
      rw [hx.2.2]
      have hne : (x ≠ ([] : List Char)) := hx.1
      have hd : (decide (x ≠ [])) = true := by simp [hne]
      rw [hd]
      dsimp only
      have := ih hrest
      unfold splitSentencesL at this
      rw [this]

/-- C9: truncation never splits a sentence — splitting the truncated text
(the output of `_truncate_to_token_limit`, before the caller appends its
marker) yields a prefix of the sentence sequence of the original content. -/
theorem c9_confirmed (text : String) (token_limit : Int) :
    split_into_sentences (truncate_to_token_limit text token_limit) <+:
      split_into_sentences text := by
  unfold split_into_sentences truncate_to_token_limit
  have hdata : (String.mk (truncateToTokenLimitL text.data token_limit)).data =
      truncateToTokenLimitL text.data token_limit := rfl
  rw [hdata]
  unfold truncateToTokenLimitL
  have hsel := takeSentences_prefixOf token_limit (splitSentencesL text.data) 0
  have hprops : ∀ x ∈ takeSentences token_limit 0 (splitSentencesL text.data),
      x ≠ [] ∧ (∀ c ∈ x, isSentenceSep c = false) ∧ pyStrip x = x := by
    intro x hx
    exact splitSentencesL_props text.data x (hsel.sublist.subset hx)
  rw [splitSentencesL_join _ hprops]
  obtain ⟨t, ht⟩ := hsel
  exact ⟨t.map String.mk, by rw [← List.map_append, ht]⟩

/-! ## C7 -/

/-- C7, counterexample: the estimator is not monotone under text extension.
`"a a"` has two one-letter words (estimate 3); appending `"1"` glues the last
word to a digit, so it no longer matches `\b[a-zA-Z]+\b` and is re-weighted as
other characters (estimate 2). -/
theorem c7_counterexample :
    "a a".data <+: "a a1".data ∧ count_tokens "a a" = 3 ∧ count_tokens "a a1" = 2 ∧
    ¬ count_tokens "a a" ≤ count_tokens "a a1" := by
  refine ⟨⟨['1'], by decide⟩, by decide, by decide, by decide⟩

theorem foldl_waStep_shift :
    ∀ (s : List Char) (lo : Bool) (rl : Nat) (pw : Bool) (w l : Nat),
      s.foldl waStep ⟨lo, rl, pw, w, l⟩ =
        ⟨(s.foldl waStep ⟨lo, rl, pw, 0, 0⟩).leftOk,
         (s.foldl waStep ⟨lo, rl, pw, 0, 0⟩).runLen,
         (s.foldl waStep ⟨lo, rl, pw, 0, 0⟩).prevWord,
         w + (s.foldl waStep ⟨lo, rl, pw, 0, 0⟩).words,
         l + (s.foldl waStep ⟨lo, rl, pw, 0, 0⟩).letters⟩ := by
  intro s
  induction s with
  | nil => intro lo rl pw w l; simp
  | cons c rest ih =>
    intro lo rl pw w l
    simp only [List.foldl_cons]
    by_cases hc : isAsciiLetterChar c
    · by_cases hrl : rl = 0
      · simp only [waStep, hc, if_true, hrl, if_pos]
        exact ih (!pw) 1 true w l
      · simp only [waStep, hc, if_true, if_neg hrl]
        exact ih lo (rl + 1) true w l
    · by_cases hcl : (0 < rl && lo && !isWordChar c) = true
      · simp only [waStep, if_neg hc, hcl, if_true]
        rw [ih _ _ _ (w + 1) (l + rl), ih _ _ _ (0 + 1) (0 + rl)]
        simp only [WordScan.mk.injEq, true_and]
        exact ⟨by omega, by omega⟩
      · simp only [waStep, if_neg hc, hcl]
        rw [if_neg (by simp [hcl]), if_neg (by simp [hcl])]
        exact ih false 0 (isWordChar c) w l

theorem isAsciiLetterChar_isWordChar (c : Char) (h : isAsciiLetterChar c = true) :
    isWordChar c = true := by
  unfold isWordChar
  simp [h]

theorem wordStats_of_runLen_zero (l : List Char) (h : (wordScan l).runLen = 0) :
    wordStats l = ((wordScan l).words, (wordScan l).letters) := by
  unfold wordStats
  dsimp only
  rw [h]
  simp

theorem wordScan_last_nonword (p : List Char) (c0 : Char)
    (hlast : p.getLast? = some c0) (hw : isWordChar c0 = false) :
    (wordScan p).leftOk = false ∧ (wordScan p).runLen = 0 ∧
      (wordScan p).prevWord = false := by
  have hp : p ≠ [] := by rintro rfl; simp at hlast
  have hsplit : p.dropLast ++ [p.getLast hp] = p := List.dropLast_append_getLast hp
  have hc : p.getLast hp = c0 := by
    have := List.getLast?_eq_getLast p hp
    rw [this] at hlast
    exact Option.some.inj hlast
  rw [hc] at hsplit
  have hlet : isAsciiLetterChar c0 = false := by
    cases hh : isAsciiLetterChar c0 with
    | false => rfl
    | true => rw [isAsciiLetterChar_isWordChar c0 hh] at hw; exact hw
  have : wordScan p = waStep (wordScan p.dropLast) c0 := by
    conv_lhs => rw [← hsplit]
    unfold wordScan
    rw [List.foldl_append]
    rfl
  rw [this]
  unfold waStep
  rw [hlet]
  simp only [Bool.false_eq_true, if_false]
  split <;> simp [hw]

theorem wordStats_append_nonword (p s : List Char) (c0 : Char)
    (hlast : p.getLast? = some c0) (hw : isWordChar c0 = false) :
    (wordStats (p ++ s)).1 = (wordStats p).1 + (wordStats s).1 ∧
    (wordStats (p ++ s)).2 = (wordStats p).2 + (wordStats s).2 := by
  obtain ⟨h1, h2, h3⟩ := wordScan_last_nonword p c0 hlast hw
  have hstp : wordScan p = ⟨false, 0, false, (wordScan p).words, (wordScan p).letters⟩ := by
    cases hsc : wordScan p
    simp only [hsc] at h1 h2 h3
    simp [h1, h2, h3]
  have hshift := foldl_waStep_shift s false 0 false (wordScan p).words (wordScan p).letters
  have hws : List.foldl waStep ⟨false, 0, false, 0, 0⟩ s = wordScan s := rfl
  rw [hws] at hshift
  have happ : wordScan (p ++ s) =
      ⟨(wordScan s).leftOk, (wordScan s).runLen, (wordScan s).prevWord,
       (wordScan p).words + (wordScan s).words,
       (wordScan p).letters + (wordScan s).letters⟩ := by
    show List.foldl waStep waInit (p ++ s) = _
    rw [List.foldl_append]
    rw [show List.foldl waStep waInit p = wordScan p from rfl, hstp]
    exact hshift
  have hA : wordStats (p ++ s) =
      (if (0 < (wordScan s).runLen && (wordScan s).leftOk) = true
        then ((wordScan p).words + (wordScan s).words + 1,
              (wordScan p).letters + (wordScan s).letters + (wordScan s).runLen)
        else ((wordScan p).words + (wordScan s).words,
              (wordScan p).letters + (wordScan s).letters)) := by
    unfold wordStats
    dsimp only
    rw [happ]
  have hB : wordStats s =
      (if (0 < (wordScan s).runLen && (wordScan s).leftOk) = true
        then ((wordScan s).words + 1, (wordScan s).letters + (wordScan s).runLen)
        else ((wordScan s).words, (wordScan s).letters)) := rfl
  have hC := wordStats_of_runLen_zero p h2
  rw [hA, hB, hC]
  by_cases hcond : (0 < (wordScan s).runLen && (wordScan s).leftOk) = true
  · simp only [hcond, if_true]
    exact ⟨by omega, by omega⟩
  · simp only [hcond, if_false]
    exact ⟨rfl, rfl⟩

theorem waStep_letters_runLen (st : WordScan) (c : Char) :
    (waStep st c).letters + (waStep st c).runLen ≤
      st.letters + st.runLen + (if isAsciiLetterChar c = true then 1 else 0) := by
  unfold waStep
  by_cases hc : isAsciiLetterChar c
  · by_cases hrl : st.runLen = 0 <;> simp [hc, hrl] <;> omega
  · simp only [hc, Bool.false_eq_true, if_false]
    split <;> simp <;> omega

theorem foldl_letters_le :
    ∀ (s : List Char) (st : WordScan),
      (s.foldl waStep st).letters + (s.foldl waStep st).runLen ≤
        st.letters + st.runLen + s.countP isAsciiLetterChar := by
  intro s
  induction s with
  | nil => intro st; simp
  | cons c rest ih =>
    intro st
    simp only [List.foldl_cons, List.countP_cons]
    have h1 := ih (waStep st c)
    have h2 := waStep_letters_runLen st c
    by_cases hc : isAsciiLetterChar c
    · simp only [hc, if_true] at h2
      simp only [hc, if_true]
      omega
    · simp only [hc, Bool.false_eq_true, if_false] at h2
      simp only [hc, Bool.false_eq_true, if_false]
      omega

theorem wordStats_letters_le (l : List Char) :
    (wordStats l).2 ≤ l.countP isAsciiLetterChar := by
  have := foldl_letters_le l waInit
  rw [show waInit.letters = 0 from rfl, show waInit.runLen = 0 from rfl] at this
  unfold wordStats wordScan
  dsimp only
  split <;> omega

theorem countP_disjoint_le {α : Type} (p q : α → Bool) (l : List α)
    (h : ∀ c, ¬ (p c = true ∧ q c = true)) :
    l.countP p + l.countP q ≤ l.length := by
  induction l with
  | nil => simp
  | cons a rest ih =>
    simp only [List.countP_cons, List.length_cons]
    by_cases hp : p a
    · have hq : ¬ q a = true := fun hq => h a ⟨hp, hq⟩
      simp [hp, hq]
      omega
    · simp [hp]
      by_cases hq : q a <;> simp [hq] <;> omega

theorem chinese_letter_disjoint (c : Char) :
    ¬ (isChineseChar c = true ∧ isAsciiLetterChar c = true) := by
  rintro ⟨h1, h2⟩
  unfold isChineseChar at h1
  unfold isAsciiLetterChar at h2
  simp only [Bool.and_eq_true, decide_eq_true_eq] at h1
  simp only [Bool.or_eq_true, Bool.and_eq_true, decide_eq_true_eq] at h2
  omega

theorem countTokensL_nonneg (l : List Char) : 0 ≤ countTokensL l := by
  unfold countTokensL
  split
  · exact le_refl 0
  · exact le_trans (by norm_num) (le_max_right _ 1)

/-- C7 (amended): the estimator is a pure function of the text (deterministic),
and it is monotone under extension at a word boundary: whenever the prefix is
empty or ends in a non-word character, extending the text cannot decrease the
estimate.  (Monotonicity for arbitrary prefixes fails: the counterexample
extends a prefix whose last word gets glued to a digit.) -/
theorem c7_amended (p s : List Char)
    (h : p = [] ∨ ∃ c, p.getLast? = some c ∧ isWordChar c = false) :
    countTokensL p ≤ countTokensL (p ++ s) := by
  rcases h with rfl | ⟨c0, hlast, hw⟩
  · simp only [List.nil_append]
    exact le_trans (le_refl 0) (countTokensL_nonneg s)
  · have hp : p ≠ [] := by rintro rfl; simp at hlast
    have hps : ¬ (p ++ s = []) := by simp [hp]
    unfold countTokensL
    rw [if_neg hp, if_neg hps]
    apply max_le_max _ (le_refl 1)
    apply Int.ediv_le_ediv (by norm_num)
    obtain ⟨hw1, hw2⟩ := wordStats_append_nonword p s c0 hlast hw
    have hch : chineseCount (p ++ s) = chineseCount p + chineseCount s := by
      unfold chineseCount
      rw [List.countP_append]
    have hlen : (p ++ s).length = p.length + s.length := List.length_append p s
    have hls : (wordStats s).2 ≤ s.countP isAsciiLetterChar := wordStats_letters_le s
    have hdisj : s.countP (fun c => isChineseChar c) + s.countP isAsciiLetterChar ≤ s.length :=
      countP_disjoint_le _ _ s chinese_letter_disjoint
    have hchs : chineseCount s = s.countP (fun c => isChineseChar c) := rfl
    rw [hw1, hw2, hch, hlen]
    push_cast
    omega

/-- Witness for `c7_amended` at concrete inputs. -/
theorem c7_amended_witness :
    ("a。".data = [] ∨ ∃ c, "a。".data.getLast? = some c ∧ isWordChar c = false) ∧
    countTokensL "a。".data ≤ countTokensL ("a。".data ++ "b".data) :=
  ⟨Or.inr ⟨'。', by decide, by decide⟩,
   c7_amended "a。".data "b".data (Or.inr ⟨'。', by decide, by decide⟩)⟩
